import Mathlib

/-!
Shallow embedding of the polars gather (take) engine
(`crates/polars-core/src/chunked_array/ops/gather.rs`) together with proofs
of the specification claims.

Machine integers (`IdxSize = u32`) are modelled as `Nat` with the explicit
bound `IdxMax`; Rust panics/aborts are modelled by `Option.none`; fallible
entry points return `Except`.
-/

namespace PolarsGather

/-- The cached order hint of a `ChunkedArray` (`polars-core series::IsSorted`). -/
inductive IsSorted : Type where
  | Ascending
  | Descending
  | Not
deriving DecidableEq, Repr

/-- One Arrow chunk: a contiguous buffer of values plus an optional validity
bitmap (bit `true` = element present, `false` = null). -/
structure ArrChunk (α : Type) : Type where
  values : List α
  validity : Option (List Bool)
deriving DecidableEq, Repr

/-- Chunk length (`Array::len`). -/
def ArrChunk.len {α : Type} (a : ArrChunk α) : Nat := a.values.length

/-- Number of null slots (`Array::null_count`). -/
def ArrChunk.nullCount {α : Type} (a : ArrChunk α) : Nat :=
  (a.validity.getD []).count false

/-- Structural well-formedness: a validity bitmap, when present, has one bit
per value. -/
def ArrChunk.wf {α : Type} (a : ArrChunk α) : Bool :=
  match a.validity with
  | none => true
  | some v => v.length == a.values.length

/-- The logical contents of a chunk as a list of optional values
(`none` = null slot). -/
def ArrChunk.toOptList {α : Type} (a : ArrChunk α) : List (Option α) :=
  match a.validity with
  | none => a.values.map some
  | some v => (a.values.zip v).map (fun p => if p.2 then some p.1 else none)

/-- `Array::value_unchecked`: positional value ignoring validity.
Precondition (as in the source): `i < a.len`. -/
def ArrChunk.value_unchecked {α : Type} [Inhabited α] (a : ArrChunk α) (i : Nat) : α :=
  a.values.getD i default

/-- `Array::get_unchecked`: positional optional value, `none` on a null slot.
Precondition (as in the source): `i < a.len`. -/
def ArrChunk.get_unchecked {α : Type} (a : ArrChunk α) (i : Nat) : Option α :=
  match a.validity with
  | none => a.values[i]?
  | some v => if v.getD i false then a.values[i]? else none

/-- A `ChunkedArray`: ordered chunks plus the cached sortedness flag. -/
structure ChunkedArray (α : Type) : Type where
  chunks : List (ArrChunk α)
  sorted : IsSorted
deriving DecidableEq, Repr

/-- Logical length: sum of the chunk lengths. -/
def ChunkedArray.len {α : Type} (ca : ChunkedArray α) : Nat :=
  (ca.chunks.map ArrChunk.len).sum

/-- Total null count over all chunks. -/
def ChunkedArray.nullCount {α : Type} (ca : ChunkedArray α) : Nat :=
  (ca.chunks.map ArrChunk.nullCount).sum

/-- Structural well-formedness of every chunk. -/
def ChunkedArray.wf {α : Type} (ca : ChunkedArray α) : Bool :=
  ca.chunks.all ArrChunk.wf

/-- The logical contents of the array: concatenation of the chunks'
optional values. -/
def ChunkedArray.toOptList {α : Type} (ca : ChunkedArray α) : List (Option α) :=
  ca.chunks.flatMap ArrChunk.toOptList

/-- Largest value of `IdxSize` (the default `u32` index width). -/
def IdxMax : Nat := 2 ^ 32 - 1

/-- The error type as observed from the gather code: `polars_ensure!` with
either the `ComputeError` or the `OutOfBounds` variant. -/
inductive PolarsError : Type where
  | computeError (msg : String)
  | outOfBounds (msg : String)
deriving DecidableEq, Repr

/-- The sortedness-flag propagator
(`_update_gather_sorted_flag`, gather.rs lines 157-167). -/
def update_gather_sorted_flag (sorted_arr : IsSorted) (sorted_idx : IsSorted) : IsSorted :=
  match sorted_arr, sorted_idx with
  | _, IsSorted.Not => IsSorted.Not
  | IsSorted.Not, _ => IsSorted.Not
  | IsSorted.Ascending, IsSorted.Ascending => IsSorted.Ascending
  | IsSorted.Ascending, IsSorted.Descending => IsSorted.Descending
  | IsSorted.Descending, IsSorted.Ascending => IsSorted.Descending
  | IsSorted.Descending, IsSorted.Descending => IsSorted.Ascending

/-- Modelled from the spec: `polars_utils::index::check_bounds` (the dense
Bounds Validator path, not under `src/`): "for a non-nullable index slice,
assert every value `< len`; fails with an out-of-bounds condition". -/
def check_bounds (idx : List Nat) (len : Nat) : Except PolarsError Unit :=
  if idx.all (fun i => decide (i < len)) then Except.ok ()
  else Except.error (PolarsError.outOfBounds "gather indices are out of bounds")

/-- Little-endian packing of a list of bits into a `Nat`. -/
def packBits : List Bool → Nat
  | [] => 0
  | b :: bs => (if b then 1 else 0) + 2 * packBits bs

/-- The branch-free in-range bitmask of one 32-element block of
`check_bounds_nulls`: bit `i` is set iff `block[i] < len`
(the inner loop of gather.rs lines 16-19). -/
def inBoundsWord (block : List Nat) (len : Nat) : Nat :=
  block.enum.foldl (fun acc p => acc ||| ((if p.2 < len then 1 else 0) <<< p.1)) 0

/-- `BitMask::get_u32`: the 32 validity bits starting at `start`, bits past
the end of the mask reading as 0. -/
def getU32 (validity : List Bool) (start : Nat) : Nat :=
  packBits ((validity.drop start).take 32)

/-- The block loop of `check_bounds_nulls` (gather.rs lines 15-22): per
32-element block require `m == m & in_bounds` for the block's validity
word `m`. -/
def check_bounds_nulls_go (vals : List Nat) (validity : List Bool) (len : Nat)
    (block_idx : Nat) : Except PolarsError Unit :=
  match h : vals with
  | [] => Except.ok ()
  | _ :: _ =>
    let block := vals.take 32
    let in_bounds := inBoundsWord block len
    let m := getU32 validity (32 * block_idx)
    if m = m &&& in_bounds then
      check_bounds_nulls_go (vals.drop 32) validity len (block_idx + 1)
    else
      Except.error (PolarsError.computeError "gather indices are out of bounds")
termination_by vals.length
decreasing_by simp [h]; omega

/-- `check_bounds_nulls` (gather.rs lines 11-24). The source unwraps the
validity bitmap (the call site guarantees it is present); the model reads
an absent bitmap as the empty mask. -/
def check_bounds_nulls (idx : ArrChunk Nat) (len : Nat) : Except PolarsError Unit :=
  check_bounds_nulls_go idx.values (idx.validity.getD []) len 0

/-- `Result::is_ok`. -/
def exceptIsOk {ε β : Type} : Except ε β → Bool
  | Except.ok _ => true
  | Except.error _ => false

/-- `check_bounds_ca` (gather.rs lines 26-36): each index chunk is validated
by the dense path when it has no nulls and by the null-aware path otherwise;
any failure is unified into the single `OutOfBounds` error. -/
def check_bounds_ca (indices : ChunkedArray Nat) (len : Nat) : Except PolarsError Unit :=
  let all_valid := indices.chunks.all (fun a =>
    if a.nullCount = 0 then exceptIsOk (check_bounds a.values len)
    else exceptIsOk (check_bounds_nulls a len))
  if all_valid then Except.ok ()
  else Except.error (PolarsError.outOfBounds "gather indices are out of bounds")

/-- `cumulative_lengths` (gather.rs lines 68-76): prefix sums of the chunk
lengths, first entry 0.  The source computes in `IdxSize` with
`checked_add(..).unwrap()`; the unwrap panic on overflow is modelled as
`none`. -/
def cumulative_lengthsGo {α : Type} : List (ArrChunk α) → Nat → Option (List Nat)
  | [], _ => some []
  | a :: rest, cumsum =>
    if cumsum + a.len ≤ IdxMax then
      (cumulative_lengthsGo rest (cumsum + a.len)).map (fun t => cumsum :: t)
    else none

/-- See `cumulative_lengthsGo`. -/
def cumulative_lengths {α : Type} (arrs : List (ArrChunk α)) : Option (List Nat) :=
  cumulative_lengthsGo arrs 0

/-- `slice::partition_point`: on a partitioned list, the number of leading
elements satisfying the predicate. -/
def partition_point (l : List Nat) (p : Nat → Bool) : Nat :=
  (l.takeWhile p).length

/-- `resolve_chunked_idx` (gather.rs lines 78-83). -/
def resolve_chunked_idx (idx : Nat) (cumlens : List Nat) : Nat × Nat :=
  let chunk_idx := partition_point cumlens (fun cl => decide (cl ≤ idx)) - 1
  (chunk_idx, idx - cumlens.getD chunk_idx 0)

/-- `target_value_unchecked` (gather.rs lines 85-94). -/
def target_value_unchecked {α : Type} [Inhabited α] (targets : List (ArrChunk α))
    (cumlens : List Nat) (idx : Nat) : α :=
  let r := resolve_chunked_idx idx cumlens
  (targets.getD r.1 (ArrChunk.mk [] none)).value_unchecked r.2

/-- `target_get_unchecked` (gather.rs lines 96-105). -/
def target_get_unchecked {α : Type} (targets : List (ArrChunk α))
    (cumlens : List Nat) (idx : Nat) : Option α :=
  let r := resolve_chunked_idx idx cumlens
  (targets.getD r.1 (ArrChunk.mk [] none)).get_unchecked r.2

/-- Modelled from the spec: the storage layer's "build chunk from a bounded
sequence of optional values" capability (`collect_arr_trusted_with_dtype`
over optional values, not under `src/`); an all-valid bitmap is dropped. -/
def collectOpt {α : Type} [Inhabited α] (xs : List (Option α)) : ArrChunk α :=
  if xs.all Option.isSome then
    ArrChunk.mk (xs.map (fun o => o.getD default)) none
  else
    ArrChunk.mk (xs.map (fun o => o.getD default)) (some (xs.map Option.isSome))

/-- `gather_idx_array_unchecked` (gather.rs lines 107-137).  The source's
`as_slice` fast path and the generic `value_unchecked` accessor compute the
same positional value and are embedded as one branch. -/
def gather_idx_array_unchecked {α : Type} [Inhabited α] (targets : List (ArrChunk α))
    (has_nulls : Bool) (indices : List Nat) : Option (ArrChunk α) :=
  if targets.length = 1 then
    let target := targets.headD (ArrChunk.mk [] none)
    if has_nulls then
      some (collectOpt (indices.map (fun i => target.get_unchecked i)))
    else
      some (ArrChunk.mk (indices.map (fun i => target.value_unchecked i)) none)
  else
    (cumulative_lengths targets).map (fun cumlens =>
      if has_nulls then
        collectOpt (indices.map (fun i => target_get_unchecked targets cumlens i))
      else
        ArrChunk.mk (indices.map (fun i => target_value_unchecked targets cumlens i)) none)

/-- Modelled from the spec: `ChunkedArray::from_chunk_iter_like`
(polars-core `from.rs`, not under `src/`) rebuilds an array with the
source's field but fresh metadata flags; the sortedness hint therefore
starts at its default `Not` until the propagator sets it. -/
def from_chunk_iter_like {α : Type} (chunks : List (ArrChunk α)) : ChunkedArray α :=
  ChunkedArray.mk chunks IsSorted.Not

/-- `ChunkTakeUnchecked<I: AsRef<[IdxSize]>> for ChunkedArray<T>`
(gather.rs lines 139-155): the scalar gather by a plain flat index slice.
No sortedness flag is set on the result. -/
def takeUncheckedSlice {α : Type} [Inhabited α] (ca : ChunkedArray α)
    (indices : List Nat) : Option (ChunkedArray α) :=
  (gather_idx_array_unchecked ca.chunks (decide (0 < ca.nullCount)) indices).map
    (fun arr => from_chunk_iter_like [arr])

/-- Sequencing of per-chunk results; a `none` (Rust panic) aborts the call. -/
def optionSequence {β : Type} : List (Option β) → Option (List β)
  | [] => some []
  | none :: _ => none
  | some b :: rest => (optionSequence rest).map (fun t => b :: t)

/-- The per-index-chunk closure of `ChunkTakeUnchecked<IdxCa> for
ChunkedArray<T>` (the body of the `indices.downcast_iter().map(..)` at
gather.rs lines 179-210), extracted as a named function.  `idx_arr.iter()`
is the chunk's optional-value view; `*i?` is `Option.bind`/`Option.map`. -/
def gatherIdxChunk {α : Type} [Inhabited α] (targets : List (ArrChunk α))
    (targets_have_nulls : Bool) (idx_arr : ArrChunk Nat) : Option (ArrChunk α) :=
  if idx_arr.nullCount = 0 then
    gather_idx_array_unchecked targets targets_have_nulls idx_arr.values
  else if targets.length = 1 then
    let target := targets.headD (ArrChunk.mk [] none)
    if targets_have_nulls then
      some (collectOpt (idx_arr.toOptList.map
        (fun i => i.bind (fun j => target.get_unchecked j))))
    else
      some (collectOpt (idx_arr.toOptList.map
        (fun i => i.map (fun j => target.value_unchecked j))))
  else
    (cumulative_lengths targets).map (fun cumlens =>
      if targets_have_nulls then
        collectOpt (idx_arr.toOptList.map
          (fun i => i.bind (fun j => target_get_unchecked targets cumlens j)))
      else
        collectOpt (idx_arr.toOptList.map
          (fun i => i.map (fun j => target_value_unchecked targets cumlens j))))

/-- `ChunkTakeUnchecked<IdxCa> for ChunkedArray<T>` (gather.rs lines
169-218): the scalar gather by a segmented, possibly nullable index array;
one output chunk per index chunk, sortedness flag propagated. -/
def takeUncheckedIdxCa {α : Type} [Inhabited α] (ca : ChunkedArray α)
    (indices : ChunkedArray Nat) : Option (ChunkedArray α) :=
  let targets_have_nulls := decide (0 < ca.nullCount)
  let targets := ca.chunks
  let chunks := indices.chunks.map (gatherIdxChunk targets targets_have_nulls)
  (optionSequence chunks).map (fun chs =>
    ChunkedArray.mk chs (update_gather_sorted_flag ca.sorted indices.sorted))

/-- Modelled from the spec: `polars_compute::gather::take_unchecked`, the
storage layer's whole-chunk "take by index array" primitive (not under
`src/`), obeying the gather contract: a null index slot yields null, a
non-null index fetches the target's optional value at that position. -/
def take_unchecked_arr {α : Type} [Inhabited α] (target : ArrChunk α)
    (idx_arr : ArrChunk Nat) : ArrChunk α :=
  collectOpt (idx_arr.toOptList.map (fun i => i.bind (fun j => target.get_unchecked j)))

/-- The per-index-chunk closure of the view-encoded gather
(gather.rs lines 227-248 and 263-284), extracted as a named function. -/
def gatherViewChunk {α : Type} [Inhabited α] (targets : List (ArrChunk α))
    (targets_have_nulls : Bool) (idx_arr : ArrChunk Nat) : Option (ArrChunk α) :=
  if targets.length = 1 then
    some (take_unchecked_arr (targets.headD (ArrChunk.mk [] none)) idx_arr)
  else
    (cumulative_lengths targets).map (fun cumlens =>
      if targets_have_nulls then
        collectOpt (idx_arr.toOptList.map
          (fun i => i.bind (fun j => target_get_unchecked targets cumlens j)))
      else
        collectOpt (idx_arr.toOptList.map
          (fun i => i.map (fun j => target_value_unchecked targets cumlens j))))

/-- `ChunkTakeUnchecked<IdxCa> for BinaryChunked/StringChunked` (gather.rs
lines 220-291): the view-encoded gather; one output chunk per index chunk,
the single-chunk case delegating to the whole-chunk take primitive. -/
def takeUncheckedView {α : Type} [Inhabited α] (ca : ChunkedArray α)
    (indices : ChunkedArray Nat) : Option (ChunkedArray α) :=
  let targets_have_nulls := decide (0 < ca.nullCount)
  let targets := ca.chunks
  let chunks := indices.chunks.map (gatherViewChunk targets targets_have_nulls)
  (optionSequence chunks).map (fun chs =>
    ChunkedArray.mk chs (update_gather_sorted_flag ca.sorted indices.sorted))

/-- Modelled from the spec: `rechunk`, the storage layer's "normalize to
single chunk" (merge) operation for nested categories (not under `src/`):
chunk buffers are concatenated and the merged validity bitmap is kept only
when any null is present. -/
def ChunkedArray.rechunk {α : Type} (ca : ChunkedArray α) : ChunkedArray α :=
  ChunkedArray.mk
    [ArrChunk.mk (ca.chunks.flatMap (fun c => c.values))
      (if ca.nullCount = 0 then none
       else some (ca.chunks.flatMap (fun c => c.validity.getD (List.replicate c.len true))))]
    ca.sorted

/-- `ChunkTakeUnchecked<IdxCa> for StructChunked/ArrayChunked/ListChunked`
(gather.rs lines 309-322, 344-353, 363-371): the nested gather normalizes
both target and index to one chunk each and invokes the whole-chunk take
primitive once, producing a single output chunk.  The sortedness flag of
`copy_with_chunks` is not relied on by any claim and is modelled as the
default. -/
def takeUncheckedNested {α : Type} [Inhabited α] (ca : ChunkedArray α)
    (indices : ChunkedArray Nat) : ChunkedArray α :=
  let a := ca.rechunk
  let index := indices.rechunk
  ChunkedArray.mk
    [take_unchecked_arr (a.chunks.headD (ArrChunk.mk [] none))
      (index.chunks.headD (ArrChunk.mk [] none))]
    IsSorted.Not

/-- `ChunkTake<I: AsRef<[IdxSize]>>::take` (gather.rs lines 38-49): checked
gather by a flat index slice.  The outer `Option` models the unchecked
gatherer's abort (`none`); the `Except` carries the validator's result. -/
def takeSlice {α : Type} [Inhabited α] (ca : ChunkedArray α)
    (indices : List Nat) : Option (Except PolarsError (ChunkedArray α)) :=
  match check_bounds indices ca.len with
  | Except.error e => some (Except.error e)
  | Except.ok _ => (takeUncheckedSlice ca indices).map Except.ok

/-- `ChunkTake<IdxCa>::take` (gather.rs lines 51-62): checked gather by a
segmented index array. -/
def takeIdxCa {α : Type} [Inhabited α] (ca : ChunkedArray α)
    (indices : ChunkedArray Nat) : Option (Except PolarsError (ChunkedArray α)) :=
  match check_bounds_ca indices ca.len with
  | Except.error e => some (Except.error e)
  | Except.ok _ => (takeUncheckedIdxCa ca indices).map Except.ok

/-- The spec's element-level gather contract: output slot `k` is
`index[k]` bound through the target's logical contents. -/
def gatherSpec {α : Type} (t : List (Option α)) (i : List (Option Nat)) : List (Option α) :=
  i.map (fun o => o.bind (fun j => t.getD j none))

/-- Every non-null index value is `< len`. -/
def inRangeB (t : List (Option Nat)) (len : Nat) : Bool :=
  t.all (fun o => (o.map (fun v => decide (v < len))).getD true)

/-- Some non-null index value is `≥ len` (a bounds violation). -/
def oobB (t : List (Option Nat)) (len : Nat) : Bool :=
  t.any (fun o => (o.map (fun v => decide (len ≤ v))).getD false)

/-- §4.5 of the spec, stated as a function following the spec's 3x3 table
word for word (for comparison with the source's propagator). -/
def sortednessSpecTable (target : IsSorted) (index : IsSorted) : IsSorted :=
  match target, index with
  | IsSorted.Ascending, IsSorted.Ascending => IsSorted.Ascending
  | IsSorted.Ascending, IsSorted.Descending => IsSorted.Descending
  | IsSorted.Ascending, IsSorted.Not => IsSorted.Not
  | IsSorted.Descending, IsSorted.Ascending => IsSorted.Descending
  | IsSorted.Descending, IsSorted.Descending => IsSorted.Ascending
  | IsSorted.Descending, IsSorted.Not => IsSorted.Not
  | IsSorted.Not, _ => IsSorted.Not

/-! ### Bit-level lemmas for the null-aware bounds validator -/

theorem testBit_packBits (bs : List Bool) (j : Nat) :
    (packBits bs).testBit j = bs[j]?.getD false := by
  induction bs generalizing j with
  | nil => simp [packBits, Nat.zero_testBit]
  | cons b bs ih =>
    cases j with
    | zero => cases b <;> simp [packBits, Nat.testBit_zero] <;> omega
    | succ j =>
      have hdiv : ((if b then 1 else 0) + 2 * packBits bs) / 2 = packBits bs := by
        cases b <;> simp <;> omega
      simp only [packBits, Nat.testBit_add_one, hdiv, ih, List.getElem?_cons_succ]

theorem testBit_single_bit_succ (b : Bool) (k : Nat) :
    (if b then (1 : Nat) else 0).testBit (k + 1) = false := by
  cases b <;> simp [Nat.testBit_add_one, Nat.zero_testBit]

theorem testBit_single_bit_zero (b : Bool) :
    (if b then (1 : Nat) else 0).testBit 0 = b := by
  cases b <;> simp [Nat.testBit_zero]

theorem shift_or_cons (b : Bool) (P n : Nat) :
    ((if b then (1 : Nat) else 0) <<< n) ||| (P <<< (n + 1)) =
      ((if b then (1 : Nat) else 0) + 2 * P) <<< n := by
  apply Nat.eq_of_testBit_eq
  intro j
  simp only [Nat.testBit_or, Nat.testBit_shiftLeft]
  rcases Nat.lt_trichotomy j n with h | h | h
  · have h1 : decide (n ≤ j) = false := by simp; omega
    have h2 : decide (n + 1 ≤ j) = false := by simp; omega
    simp [h1, h2]
  · subst h
    have h1 : decide (j ≤ j) = true := by simp
    have h2 : decide (j + 1 ≤ j) = false := by simp
    simp [h1, h2, Nat.sub_self, testBit_single_bit_zero, Nat.testBit_zero]
  · have h1 : decide (n ≤ j) = true := by simp; omega
    have h2 : decide (n + 1 ≤ j) = true := by simp; omega
    obtain ⟨k, hk⟩ : ∃ k, j - n = k + 1 := ⟨j - n - 1, by omega⟩
    have hk2 : j - (n + 1) = k := by omega
    have hs : ((if b then (1 : Nat) else 0) + 2 * P).testBit (k + 1) = P.testBit k := by
      rw [Nat.testBit_add_one]
      congr 1
      cases b <;> simp <;> omega
    simp [h1, h2, hk, hk2, hs, testBit_single_bit_succ]

theorem enumFrom_foldl_or (len : Nat) (bs : List Nat) (n acc : Nat) :
    ((List.enumFrom n bs).foldl
        (fun acc p => acc ||| ((if p.2 < len then 1 else 0) <<< p.1)) acc) =
      acc ||| (packBits (bs.map (fun x => decide (x < len))) <<< n) := by
  induction bs generalizing n acc with
  | nil => simp [packBits, Nat.zero_shiftLeft, Nat.or_zero]
  | cons x bs ih =>
    simp only [List.enumFrom, List.foldl_cons, List.map_cons, packBits]
    rw [ih]
    have : (if decide (x < len) then (1 : Nat) else 0) = (if x < len then (1 : Nat) else 0) := by
      simp
    rw [← this, ← shift_or_cons, Nat.or_assoc]

theorem testBit_inBoundsWord (block : List Nat) (len j : Nat) :
    (inBoundsWord block len).testBit j =
      ((block[j]?.map (fun x => decide (x < len))).getD false) := by
  have h : inBoundsWord block len = packBits (block.map (fun x => decide (x < len))) := by
    have := enumFrom_foldl_or len block 0 0
    simpa [inBoundsWord, List.enum, Nat.shiftLeft_zero, Nat.zero_or] using this
  rw [h, testBit_packBits, List.getElem?_map]

theorem testBit_getU32 (validity : List Bool) (s j : Nat) :
    (getU32 validity s).testBit j =
      if j < 32 then validity[s + j]?.getD false else false := by
  rw [getU32, testBit_packBits]
  by_cases h : j < 32
  · rw [List.getElem?_take_of_lt h, List.getElem?_drop, if_pos h]
  · rw [if_neg h, List.getElem?_eq_none, Option.getD_none]
    calc (List.take 32 (validity.drop s)).length ≤ 32 := by
          simpa using List.length_take_le 32 (validity.drop s)
      _ ≤ j := by omega

theorem mask_subset_iff (m ib : Nat) :
    (m = m &&& ib) ↔ ∀ j, m.testBit j = true → ib.testBit j = true := by
  constructor
  · intro h j hj
    have := congrArg (fun x => x.testBit j) h
    simp only [Nat.testBit_and, hj, Bool.true_and] at this
    exact this.symm
  · intro h
    apply Nat.eq_of_testBit_eq
    intro j
    rw [Nat.testBit_and]
    cases hm : m.testBit j
    · simp
    · simp [h j hm]

/-! ### Characterization of the null-aware bounds validator -/

theorem check_bounds_nulls_go_ok_iff (len : Nat) (vals : List Nat) (validity : List Bool)
    (bi : Nat) (hlen : validity.length = 32 * bi + vals.length) :
    check_bounds_nulls_go vals validity len bi = Except.ok () ↔
      ∀ k x, vals[k]? = some x → validity[32 * bi + k]?.getD false = true → x < len := by
  match vals, hlen with
  | [], hlen => simp [check_bounds_nulls_go]
  | v :: vs, hlen =>
    have hcond : (getU32 validity (32 * bi) =
        getU32 validity (32 * bi) &&& inBoundsWord ((v :: vs).take 32) len) ↔
        (∀ k, k < 32 → validity[32 * bi + k]?.getD false = true →
          (((v :: vs).take 32)[k]?.map (fun x => decide (x < len))).getD false = true) := by
      rw [mask_subset_iff]
      constructor
      · intro h k hk32 hbit
        have hm : (getU32 validity (32 * bi)).testBit k = true := by
          rw [testBit_getU32, if_pos hk32]; exact hbit
        have := h k hm
        rwa [testBit_inBoundsWord] at this
      · intro h j hm
        rw [testBit_getU32] at hm
        by_cases hj : j < 32
        · rw [if_pos hj] at hm
          rw [testBit_inBoundsWord]
          exact h j hj hm
        · rw [if_neg hj] at hm
          exact absurd hm (by simp)
    have hblock : (∀ k, k < 32 → validity[32 * bi + k]?.getD false = true →
          (((v :: vs).take 32)[k]?.map (fun x => decide (x < len))).getD false = true) ↔
        (∀ k x, k < 32 → (v :: vs)[k]? = some x →
          validity[32 * bi + k]?.getD false = true → x < len) := by
      constructor
      · intro h k x hk32 hget hbit
        have := h k hk32 hbit
        rw [List.getElem?_take_of_lt hk32, hget] at this
        simpa using this
      · intro h k hk32 hbit
        have hkl : 32 * bi + k < validity.length := by
          by_contra hcontra
          rw [List.getElem?_eq_none (by omega), Option.getD_none] at hbit
          exact Bool.false_ne_true hbit
        have hkv : k < (v :: vs).length := by
          rw [hlen] at hkl; omega
        obtain ⟨x, hx⟩ : ∃ x, (v :: vs)[k]? = some x :=
          ⟨(v :: vs)[k], List.getElem?_eq_getElem hkv⟩
        rw [List.getElem?_take_of_lt hk32, hx]
        simpa using h k x hk32 hx hbit
    have hunfold : check_bounds_nulls_go (v :: vs) validity len bi =
        if getU32 validity (32 * bi) =
            getU32 validity (32 * bi) &&& inBoundsWord ((v :: vs).take 32) len then
          check_bounds_nulls_go ((v :: vs).drop 32) validity len (bi + 1)
        else
          Except.error (PolarsError.computeError "gather indices are out of bounds") := by
      rw [check_bounds_nulls_go]
    by_cases hsmall : (v :: vs).length ≤ 32
    · have hdrop : (v :: vs).drop 32 = [] := List.drop_eq_nil_of_le hsmall
      rw [hunfold, hdrop]
      by_cases hc : getU32 validity (32 * bi) =
          getU32 validity (32 * bi) &&& inBoundsWord ((v :: vs).take 32) len
      · rw [if_pos hc]
        simp only [check_bounds_nulls_go, true_iff]
        intro k x hget hbit
        by_cases hk : k < 32
        · exact (hblock.mp (hcond.mp hc)) k x hk hget hbit
        · rw [List.getElem?_eq_none (by omega)] at hget
          exact absurd hget (by simp)
      · rw [if_neg hc]
        constructor
        · intro h
          exact absurd h (by simp)
        · intro hall
          exact absurd (hcond.mpr (hblock.mpr (fun k x _ hget hbit => hall k x hget hbit))) hc
    · have hlen' : validity.length = 32 * (bi + 1) + ((v :: vs).drop 32).length := by
        rw [List.length_drop]
        omega
      have ih := check_bounds_nulls_go_ok_iff len ((v :: vs).drop 32) validity (bi + 1) hlen'
      rw [hunfold]
      by_cases hc : getU32 validity (32 * bi) =
          getU32 validity (32 * bi) &&& inBoundsWord ((v :: vs).take 32) len
      · rw [if_pos hc, ih]
        constructor
        · intro hrest k x hget hbit
          by_cases hk : k < 32
          · exact (hblock.mp (hcond.mp hc)) k x hk hget hbit
          · have hget' : ((v :: vs).drop 32)[k - 32]? = some x := by
              rw [List.getElem?_drop]
              have : 32 + (k - 32) = k := by omega
              rwa [this]
            have hbit' : validity[32 * (bi + 1) + (k - 32)]?.getD false = true := by
              have : 32 * (bi + 1) + (k - 32) = 32 * bi + k := by omega
              rwa [this]
            exact hrest (k - 32) x hget' hbit'
        · intro hall k x hget hbit
          have hget' : (v :: vs)[32 + k]? = some x := by
            rw [← List.getElem?_drop]
            exact hget
          have hbit' : validity[32 * bi + (32 + k)]?.getD false = true := by
            have : 32 * bi + (32 + k) = 32 * (bi + 1) + k := by omega
            rwa [this]
          exact hall (32 + k) x hget' hbit'
      · rw [if_neg hc]
        constructor
        · intro h
          exact absurd h (by simp)
        · intro hall
          exact absurd (hcond.mpr (hblock.mpr (fun k x _ hget hbit => hall k x hget hbit))) hc
termination_by vals.length
decreasing_by simp; omega

/-! ### Chunk-level lemmas -/

theorem exceptIsOk_iff {ε : Type} (e : Except ε Unit) :
    exceptIsOk e = true ↔ e = Except.ok () := by
  cases e with
  | ok a => cases a; simp [exceptIsOk]
  | error => simp [exceptIsOk]

theorem all_flatMap {β γ : Type} (l : List β) (f : β → List γ) (p : γ → Bool) :
    (l.flatMap f).all p = l.all (fun x => (f x).all p) := by
  induction l with
  | nil => simp
  | cons b bs ih => simp [List.flatMap_cons, List.all_append, ih]

theorem ArrChunk.toOptList_none {α : Type} (a : ArrChunk α) (h : a.validity = none) :
    a.toOptList = a.values.map some := by
  simp [ArrChunk.toOptList, h]

theorem ArrChunk.toOptList_some {α : Type} (a : ArrChunk α) (bits : List Bool)
    (h : a.validity = some bits) :
    a.toOptList = (a.values.zip bits).map (fun p => if p.2 then some p.1 else none) := by
  simp [ArrChunk.toOptList, h]

theorem ArrChunk.get_unchecked_none {α : Type} (a : ArrChunk α) (h : a.validity = none)
    (i : Nat) : a.get_unchecked i = a.values[i]? := by
  simp [ArrChunk.get_unchecked, h]

theorem ArrChunk.get_unchecked_some {α : Type} (a : ArrChunk α) (bits : List Bool)
    (h : a.validity = some bits) (i : Nat) :
    a.get_unchecked i = if bits.getD i false then a.values[i]? else none := by
  simp [ArrChunk.get_unchecked, h]

theorem ArrChunk.wf_some {α : Type} (a : ArrChunk α) (bits : List Bool)
    (h : a.validity = some bits) (hwf : a.wf = true) : bits.length = a.values.length := by
  unfold ArrChunk.wf at hwf
  rw [h] at hwf
  simpa using hwf

theorem ArrChunk.toOptList_length {α : Type} (a : ArrChunk α) (hwf : a.wf = true) :
    a.toOptList.length = a.len := by
  cases hv : a.validity with
  | none => simp [ArrChunk.toOptList_none a hv, ArrChunk.len]
  | some v =>
    have hl := ArrChunk.wf_some a v hv hwf
    simp [ArrChunk.toOptList_some a v hv, List.length_zip, hl, ArrChunk.len]

theorem ArrChunk.toOptList_getElem {α : Type} (a : ArrChunk α) (hwf : a.wf = true)
    (k : Nat) (hk : k < a.len) :
    a.toOptList[k]? = some (a.get_unchecked k) := by
  cases hv : a.validity with
  | none =>
    rw [ArrChunk.toOptList_none a hv, ArrChunk.get_unchecked_none a hv,
      List.getElem?_map, List.getElem?_eq_getElem hk]
    simp [List.getElem?_eq_getElem hk]
  | some v =>
    have hl := ArrChunk.wf_some a v hv hwf
    have hkv : k < v.length := by rw [hl]; exact hk
    have hkz : k < (a.values.zip v).length := by
      rw [List.length_zip]; omega
    rw [ArrChunk.toOptList_some a v hv, ArrChunk.get_unchecked_some a v hv,
      List.getElem?_map, List.getElem?_eq_getElem hkz]
    simp [List.getElem_zip, List.getD_eq_getElem v false hkv, List.getElem?_eq_getElem hk,
      List.getD_eq_getElem?_getD, List.getElem?_eq_getElem hkv]

theorem ArrChunk.toOptList_getD {α : Type} (a : ArrChunk α) (hwf : a.wf = true)
    (k : Nat) (hk : k < a.len) :
    a.toOptList.getD k none = a.get_unchecked k := by
  rw [List.getD_eq_getElem?_getD, ArrChunk.toOptList_getElem a hwf k hk, Option.getD_some]

theorem ArrChunk.dense_toOptList {α : Type} (a : ArrChunk α) (hwf : a.wf = true)
    (h0 : a.nullCount = 0) :
    a.toOptList = a.values.map some := by
  cases hv : a.validity with
  | none => exact ArrChunk.toOptList_none a hv
  | some v =>
    rw [ArrChunk.toOptList_some a v hv]
    unfold ArrChunk.nullCount at h0
    rw [hv] at h0
    simp only [Option.getD_some] at h0
    have hmem : ∀ b ∈ v, b = true := by
      intro b hb
      cases b
      · exact absurd hb (List.count_eq_zero.mp h0)
      · rfl
    have hl := ArrChunk.wf_some a v hv hwf
    have : ∀ p ∈ a.values.zip v, (if p.2 then some p.1 else none) = some p.1 := by
      intro p hp
      rw [hmem p.2 (List.of_mem_zip hp).2]
      simp
    rw [List.map_congr_left this]
    have hfst : (a.values.zip v).map Prod.fst = a.values :=
      List.map_fst_zip a.values v (by omega)
    calc (a.values.zip v).map (fun p => some p.1)
        = ((a.values.zip v).map Prod.fst).map some := by rw [List.map_map]; rfl
      _ = a.values.map some := by rw [hfst]

theorem ArrChunk.dense_getD {α : Type} [Inhabited α] (a : ArrChunk α) (hwf : a.wf = true)
    (h0 : a.nullCount = 0) (k : Nat) (hk : k < a.len) :
    a.toOptList.getD k none = some (a.value_unchecked k) := by
  rw [ArrChunk.dense_toOptList a hwf h0]
  unfold ArrChunk.value_unchecked
  rw [List.getD_eq_getElem?_getD, List.getElem?_map, List.getElem?_eq_getElem hk,
    List.getD_eq_getElem a.values default hk]
  rfl

theorem ArrChunk.dense_get_eq_value {α : Type} [Inhabited α] (a : ArrChunk α)
    (hwf : a.wf = true) (h0 : a.nullCount = 0) (i : Nat) (hi : i < a.len) :
    a.get_unchecked i = some (a.value_unchecked i) := by
  rw [← ArrChunk.toOptList_getD a hwf i hi]
  exact ArrChunk.dense_getD a hwf h0 i hi

/-- Every non-null slot value of one index chunk is `< len`. -/
def SlotOk (a : ArrChunk Nat) (len : Nat) : Prop :=
  ∀ k, k < a.len → ∀ v, a.get_unchecked k = some v → v < len

theorem check_bounds_isOk (vals : List Nat) (len : Nat) :
    exceptIsOk (check_bounds vals len) = vals.all (fun i => decide (i < len)) := by
  unfold check_bounds
  by_cases h : vals.all (fun i => decide (i < len)) = true
  · rw [if_pos h, h]; rfl
  · rw [if_neg h]
    simp only [Bool.not_eq_true] at h
    rw [h]; rfl

theorem dense_check_iff (a : ArrChunk Nat) (len : Nat) (hwf : a.wf = true)
    (h0 : a.nullCount = 0) :
    exceptIsOk (check_bounds a.values len) = true ↔ SlotOk a len := by
  rw [check_bounds_isOk, List.all_eq_true]
  constructor
  · intro h k hk v hgu
    have hsome : a.toOptList[k]? = some (a.get_unchecked k) := ArrChunk.toOptList_getElem a hwf k hk
    rw [ArrChunk.dense_toOptList a hwf h0, List.getElem?_map, hgu] at hsome
    have hv : a.values[k]? = some v := by
      cases hvk : a.values[k]? with
      | none => rw [hvk] at hsome; exact absurd hsome (by simp)
      | some x =>
        rw [hvk] at hsome
        simp only [Option.map_some', Option.some.injEq] at hsome
        rw [hsome]
    have hmem : v ∈ a.values := by
      obtain ⟨hh, hx⟩ := List.getElem?_eq_some.mp hv
      exact hx ▸ List.getElem_mem hh
    simpa using h v hmem
  · intro h x hx
    obtain ⟨k, hk, hget⟩ := List.mem_iff_getElem.mp hx
    simp only [decide_eq_true_eq]
    apply h k (by exact hk) x
    cases hv : a.validity with
    | none =>
      rw [ArrChunk.get_unchecked_none a hv, List.getElem?_eq_getElem hk, hget]
    | some bits =>
      unfold ArrChunk.nullCount at h0
      rw [hv] at h0
      simp only [Option.getD_some] at h0
      have hl := ArrChunk.wf_some a bits hv hwf
      have hkb : k < bits.length := by rw [hl]; exact hk
      have hbt : bits.getD k false = true := by
        rw [List.getD_eq_getElem bits false hkb]
        cases hb : bits[k]
        · exact absurd (hb ▸ List.getElem_mem hkb) (List.count_eq_zero.mp h0)
        · rfl
      rw [ArrChunk.get_unchecked_some a bits hv, hbt]
      simp only [if_true]
      rw [List.getElem?_eq_getElem hk, hget]

theorem check_bounds_nulls_isOk_iff (a : ArrChunk Nat) (len : Nat) (bits : List Bool)
    (hv : a.validity = some bits) (hwf : a.wf = true) :
    exceptIsOk (check_bounds_nulls a len) = true ↔ SlotOk a len := by
  have hl := ArrChunk.wf_some a bits hv hwf
  rw [exceptIsOk_iff]
  unfold check_bounds_nulls
  rw [hv]
  simp only [Option.getD_some]
  rw [check_bounds_nulls_go_ok_iff len a.values bits 0 (by simpa using hl)]
  constructor
  · intro h k hk v hgu
    rw [ArrChunk.get_unchecked_some a bits hv] at hgu
    by_cases hb : bits.getD k false = true
    · rw [hb] at hgu
      simp only [if_true] at hgu
      apply h k v hgu
      have hkb : k < bits.length := by rw [hl]; exact hk
      simp only [Nat.mul_zero, Nat.zero_add]
      rw [List.getElem?_eq_getElem hkb]
      rw [List.getD_eq_getElem bits false hkb] at hb
      simp [hb]
    · simp only [Bool.not_eq_true] at hb
      rw [hb] at hgu
      simp at hgu
  · intro h k x hget hbit
    have hk : k < a.len := by
      obtain ⟨hh, _⟩ := List.getElem?_eq_some.mp hget
      exact hh
    apply h k hk x
    rw [ArrChunk.get_unchecked_some a bits hv]
    have hkb : k < bits.length := by rw [hl]; exact hk
    simp only [Nat.mul_zero, Nat.zero_add] at hbit
    rw [List.getElem?_eq_getElem hkb] at hbit
    simp only [Option.getD_some] at hbit
    rw [List.getD_eq_getElem bits false hkb, hbit]
    simpa using hget

theorem chunk_valid_iff (a : ArrChunk Nat) (len : Nat) (hwf : a.wf = true) :
    (if a.nullCount = 0 then exceptIsOk (check_bounds a.values len)
     else exceptIsOk (check_bounds_nulls a len)) = true ↔ SlotOk a len := by
  by_cases h0 : a.nullCount = 0
  · rw [if_pos h0]
    exact dense_check_iff a len hwf h0
  · rw [if_neg h0]
    cases hv : a.validity with
    | none =>
      unfold ArrChunk.nullCount at h0
      rw [hv] at h0
      simp at h0
    | some bits => exact check_bounds_nulls_isOk_iff a len bits hv hwf

theorem check_bounds_ca_ok_iff (indices : ChunkedArray Nat) (len : Nat)
    (hwf : indices.wf = true) :
    check_bounds_ca indices len = Except.ok () ↔ ∀ a ∈ indices.chunks, SlotOk a len := by
  unfold ChunkedArray.wf at hwf
  rw [List.all_eq_true] at hwf
  have hall : (indices.chunks.all (fun a =>
      if a.nullCount = 0 then exceptIsOk (check_bounds a.values len)
      else exceptIsOk (check_bounds_nulls a len)) = true) ↔
      ∀ a ∈ indices.chunks, SlotOk a len := by
    rw [List.all_eq_true]
    constructor
    · intro h a ha
      exact (chunk_valid_iff a len (hwf a ha)).mp (h a ha)
    · intro h a ha
      exact (chunk_valid_iff a len (hwf a ha)).mpr (h a ha)
  unfold check_bounds_ca
  by_cases hb : indices.chunks.all (fun a =>
      if a.nullCount = 0 then exceptIsOk (check_bounds a.values len)
      else exceptIsOk (check_bounds_nulls a len)) = true
  · rw [← hall]
    simp [hb]
  · rw [← hall]
    simp only [Bool.not_eq_true] at hb
    simp [hb]

theorem check_bounds_ca_cases (indices : ChunkedArray Nat) (len : Nat) :
    check_bounds_ca indices len = Except.ok () ∨
      check_bounds_ca indices len =
        Except.error (PolarsError.outOfBounds "gather indices are out of bounds") := by
  unfold check_bounds_ca
  by_cases hb : indices.chunks.all (fun a =>
      if a.nullCount = 0 then exceptIsOk (check_bounds a.values len)
      else exceptIsOk (check_bounds_nulls a len)) = true
  · left; simp [hb]
  · right
    simp only [Bool.not_eq_true] at hb
    simp [hb]

theorem chunk_inRange_iff (a : ArrChunk Nat) (len : Nat) (hwf : a.wf = true) :
    (a.toOptList.all (fun o => (o.map (fun v => decide (v < len))).getD true) = true) ↔
      SlotOk a len := by
  rw [List.all_eq_true]
  constructor
  · intro h k hk v hgu
    have hsome := ArrChunk.toOptList_getElem a hwf k hk
    rw [hgu] at hsome
    have hmem : some v ∈ a.toOptList := by
      obtain ⟨hh, hx⟩ := List.getElem?_eq_some.mp hsome
      exact hx ▸ List.getElem_mem hh
    simpa using h (some v) hmem
  · intro h o ho
    obtain ⟨k, hk, hget⟩ := List.mem_iff_getElem.mp ho
    have hk' : k < a.len := by
      rw [← ArrChunk.toOptList_length a hwf]; exact hk
    have := ArrChunk.toOptList_getElem a hwf k hk'
    rw [List.getElem?_eq_getElem hk, hget] at this
    cases o with
    | none => simp
    | some v =>
      simp only [Option.map_some', Option.getD_some, decide_eq_true_eq]
      exact h k hk' v (Option.some.inj this).symm

theorem inRangeB_iff_chunks (indices : ChunkedArray Nat) (len : Nat)
    (hwf : indices.wf = true) :
    inRangeB indices.toOptList len = true ↔ ∀ a ∈ indices.chunks, SlotOk a len := by
  unfold ChunkedArray.wf at hwf
  rw [List.all_eq_true] at hwf
  unfold inRangeB ChunkedArray.toOptList
  rw [all_flatMap, List.all_eq_true]
  constructor
  · intro h a ha
    exact (chunk_inRange_iff a len (hwf a ha)).mp (h a ha)
  · intro h a ha
    exact (chunk_inRange_iff a len (hwf a ha)).mpr (h a ha)

theorem oobB_eq_not_inRangeB (t : List (Option Nat)) (len : Nat) :
    oobB t len = !(inRangeB t len) := by
  unfold oobB inRangeB
  induction t with
  | nil => rfl
  | cons o t ih =>
    cases o with
    | none => simpa using ih
    | some v =>
      simp only [List.any_cons, List.all_cons, Option.map_some, Option.getD_some,
        Bool.not_and, ← ih]
      by_cases h : v < len
      · have h1 : decide (len ≤ v) = false := by simp; omega
        have h2 : decide (v < len) = true := by simp [h]
        simp [h1, h2]
      · have h1 : decide (len ≤ v) = true := by simp; omega
        have h2 : decide (v < len) = false := by simp [h]
        simp [h1, h2]

/-! ### The index resolver -/

/-- Total logical length of a list of chunks. -/
def totalLen {α : Type} (arrs : List (ArrChunk α)) : Nat :=
  (arrs.map ArrChunk.len).sum

/-- Reference prefix-sum table (proof-side): first entry 0. -/
def cumlensOfGo : List Nat → Nat → List Nat
  | [], _ => []
  | l :: ls, c => c :: cumlensOfGo ls (c + l)

/-- See `cumlensOfGo`. -/
def cumlensOf (lens : List Nat) : List Nat := cumlensOfGo lens 0

/-- Reference resolver (proof-side): peel chunks off the front. -/
def resolveSpec : List Nat → Nat → Nat × Nat
  | [], i => (0, i)
  | l :: ls, i =>
    if i < l then (0, i)
    else ((resolveSpec ls (i - l)).1 + 1, (resolveSpec ls (i - l)).2)

theorem cumulative_lengthsGo_some_of_le {α : Type} (arrs : List (ArrChunk α)) (c : Nat)
    (h : c + totalLen arrs ≤ IdxMax) :
    cumulative_lengthsGo arrs c = some (cumlensOfGo (arrs.map ArrChunk.len) c) := by
  induction arrs generalizing c with
  | nil => rfl
  | cons a rest ih =>
    unfold totalLen at h
    simp only [List.map_cons, List.sum_cons] at h
    have hc : c + a.len ≤ IdxMax := by omega
    unfold cumulative_lengthsGo
    rw [if_pos hc, ih (c + a.len) (by unfold totalLen; omega)]
    rfl

theorem cumulative_lengthsGo_none_of_gt {α : Type} (arrs : List (ArrChunk α)) (c : Nat)
    (hne : arrs ≠ []) (h : IdxMax < c + totalLen arrs) :
    cumulative_lengthsGo arrs c = none := by
  induction arrs generalizing c with
  | nil => exact absurd rfl hne
  | cons a rest ih =>
    unfold totalLen at h
    simp only [List.map_cons, List.sum_cons] at h
    unfold cumulative_lengthsGo
    by_cases hc : c + a.len ≤ IdxMax
    · rw [if_pos hc]
      have hrest : rest ≠ [] := by
        intro hr
        rw [hr] at h
        simp [totalLen] at h
        omega
      rw [ih (c + a.len) hrest (by unfold totalLen; omega)]
      rfl
    · rw [if_neg hc]

theorem cumulative_lengthsGo_some {α : Type} (arrs : List (ArrChunk α)) (c : Nat)
    (t : List Nat) (h : cumulative_lengthsGo arrs c = some t) :
    t = cumlensOfGo (arrs.map ArrChunk.len) c := by
  induction arrs generalizing c t with
  | nil =>
    unfold cumulative_lengthsGo at h
    simp only [Option.some.injEq] at h
    rw [← h]; rfl
  | cons a rest ih =>
    unfold cumulative_lengthsGo at h
    by_cases hc : c + a.len ≤ IdxMax
    · rw [if_pos hc] at h
      cases hr : cumulative_lengthsGo rest (c + a.len) with
      | none => rw [hr] at h; exact absurd h (by simp)
      | some t' =>
        rw [hr] at h
        simp only [Option.map_some', Option.some.injEq] at h
        rw [← h, ih (c + a.len) t' hr]
        rfl
    · rw [if_neg hc] at h
      exact absurd h (by simp)

theorem cumlensOfGo_mem_ge (lens : List Nat) (c : Nat) :
    ∀ x ∈ cumlensOfGo lens c, c ≤ x := by
  induction lens generalizing c with
  | nil => intro x hx; exact absurd hx (by simp [cumlensOfGo])
  | cons l ls ih =>
    intro x hx
    unfold cumlensOfGo at hx
    rcases List.mem_cons.mp hx with h | h
    · omega
    · have := ih (c + l) x h
      omega

theorem partition_point_cons_pos (x : Nat) (l : List Nat) (p : Nat → Bool)
    (hp : p x = true) : partition_point (x :: l) p = partition_point l p + 1 := by
  simp [partition_point, List.takeWhile_cons, hp]

theorem partition_point_nil_of (l : List Nat) (p : Nat → Bool)
    (h : ∀ y ∈ l, p y = false) : partition_point l p = 0 := by
  cases l with
  | nil => rfl
  | cons y ys =>
    unfold partition_point
    rw [List.takeWhile_cons, h y (List.mem_cons_self y ys)]
    rfl

theorem resolve_cons (idx c : Nat) (T : List Nat) (hc : c ≤ idx) :
    resolve_chunked_idx idx (c :: T) =
      (partition_point T (fun cl => decide (cl ≤ idx)),
       idx - (c :: T).getD (partition_point T (fun cl => decide (cl ≤ idx))) 0) := by
  simp only [resolve_chunked_idx]
  rw [partition_point_cons_pos c T _ (by simp [hc])]
  simp only [Nat.add_sub_cancel]

theorem resolve_eq_resolveSpec (lens : List Nat) (c idx : Nat) (h1 : c ≤ idx)
    (h2 : idx < c + lens.sum) :
    resolve_chunked_idx idx (cumlensOfGo lens c) = resolveSpec lens (idx - c) := by
  induction lens generalizing c with
  | nil => simp at h2; omega
  | cons l ls ih =>
    show resolve_chunked_idx idx (c :: cumlensOfGo ls (c + l)) = resolveSpec (l :: ls) (idx - c)
    rw [resolve_cons idx c _ h1]
    by_cases hidx : idx < c + l
    · have hrest : partition_point (cumlensOfGo ls (c + l)) (fun cl => decide (cl ≤ idx)) = 0 := by
        apply partition_point_nil_of
        intro y hy
        have := cumlensOfGo_mem_ge ls (c + l) y hy
        simp only [decide_eq_false_iff_not]
        omega
      have hspec : resolveSpec (l :: ls) (idx - c) = (0, idx - c) := by
        unfold resolveSpec
        rw [if_pos (by omega)]
      rw [hrest, hspec]
      simp [List.getD_cons_zero]
    · have hcl : c + l ≤ idx := by omega
      have hsum : 0 < ls.sum := by
        simp only [List.sum_cons] at h2
        omega
      obtain ⟨l', ls', hls⟩ : ∃ l' ls', ls = l' :: ls' := by
        cases ls with
        | nil => simp at hsum
        | cons l' ls' => exact ⟨l', ls', rfl⟩
      have ihc := ih (c + l) hcl (by simp only [List.sum_cons] at h2; omega)
      have hTgo : cumlensOfGo ls (c + l) = (c + l) :: cumlensOfGo ls' (c + l + l') := by
        rw [hls]; rfl
    -- rewrite the inner resolver through its own cons step
      rw [hTgo, resolve_cons idx (c + l) _ hcl] at ihc
      have hsub : idx - c - l = idx - (c + l) := by omega
      have hspec : resolveSpec (l :: ls) (idx - c) =
          ((resolveSpec ls (idx - (c + l))).1 + 1, (resolveSpec ls (idx - (c + l))).2) := by
        simp only [resolveSpec]
        rw [if_neg (by omega), hsub]
      rw [hspec, hTgo]
      rw [partition_point_cons_pos (c + l) _ _ (by simp [hcl])]
      have hf := congrArg Prod.fst ihc
      have hs := congrArg Prod.snd ihc
      simp only at hf hs
      rw [List.getD_cons_succ]
      rw [← hf, ← hs]

theorem resolveSpec_correct (lens : List Nat) (idx : Nat) (h : idx < lens.sum) :
    (resolveSpec lens idx).1 < lens.length ∧
    (resolveSpec lens idx).2 < lens.getD (resolveSpec lens idx).1 0 ∧
    (lens.take (resolveSpec lens idx).1).sum + (resolveSpec lens idx).2 = idx := by
  induction lens generalizing idx with
  | nil => simp at h
  | cons l ls ih =>
    by_cases hl : idx < l
    · have hr : resolveSpec (l :: ls) idx = (0, idx) := by
        simp only [resolveSpec]
        rw [if_pos hl]
      rw [hr]
      simp [hl]
    · have hrec : idx - l < ls.sum := by
        simp only [List.sum_cons] at h
        omega
      obtain ⟨ih1, ih2, ih3⟩ := ih (idx - l) hrec
      have hr : resolveSpec (l :: ls) idx =
          ((resolveSpec ls (idx - l)).1 + 1, (resolveSpec ls (idx - l)).2) := by
        simp only [resolveSpec]
        rw [if_neg hl]
      rw [hr]
      refine ⟨by simpa using ih1, ?_, ?_⟩
      · simpa [List.getD_cons_succ] using ih2
      · simp only [List.take_succ_cons, List.sum_cons]
        omega

theorem cumlensOfGo_getD (lens : List Nat) (c j : Nat) (hj : j < lens.length) :
    (cumlensOfGo lens c).getD j 0 = c + (lens.take j).sum := by
  induction lens generalizing c j with
  | nil => simp at hj
  | cons l ls ih =>
    cases j with
    | zero => simp [cumlensOfGo, List.getD_cons_zero]
    | succ j =>
      show (c :: cumlensOfGo ls (c + l)).getD (j + 1) 0 = _
      rw [List.getD_cons_succ, ih (c + l) j (by simpa using hj)]
      simp only [List.take_succ_cons, List.sum_cons]
      omega

theorem sum_take_le_sum (l : List Nat) (i : Nat) : (l.take i).sum ≤ l.sum := by
  induction l generalizing i with
  | nil => simp
  | cons x xs ih =>
    cases i with
    | zero => simp
    | succ i =>
      simp only [List.take_succ_cons, List.sum_cons]
      have := ih i
      omega

theorem sum_take_mono (l : List Nat) (i j : Nat) (h : i ≤ j) :
    (l.take i).sum ≤ (l.take j).sum := by
  have ht : (l.take j).take i = l.take i := by
    rw [List.take_take]
    congr 1
    omega
  rw [← ht]
  exact sum_take_le_sum (l.take j) i

theorem resolveSpec_largest (lens : List Nat) (idx : Nat) (h : idx < lens.sum)
    (j : Nat) (hj : j < lens.length) (hle : (lens.take j).sum ≤ idx) :
    j ≤ (resolveSpec lens idx).1 := by
  obtain ⟨h1, h2, h3⟩ := resolveSpec_correct lens idx h
  rw [List.getD_eq_getElem lens 0 h1] at h2
  by_contra hcon
  push_neg at hcon
  have hstep := List.sum_take_succ lens (resolveSpec lens idx).1 h1
  have hmono := sum_take_mono lens ((resolveSpec lens idx).1 + 1) j (by omega)
  omega

theorem flatten_getD {β : Type} (xss : List (List β)) (idx : Nat) (d : β)
    (h : idx < (xss.map List.length).sum) :
    xss.flatten.getD idx d =
      (xss.getD (resolveSpec (xss.map List.length) idx).1 []).getD
        (resolveSpec (xss.map List.length) idx).2 d := by
  induction xss generalizing idx with
  | nil => simp at h
  | cons xs xss ih =>
    simp only [List.map_cons, List.sum_cons] at h
    simp only [List.map_cons, List.flatten_cons]
    by_cases hl : idx < xs.length
    · have hr : resolveSpec (xs.length :: xss.map List.length) idx = (0, idx) := by
        simp only [resolveSpec]
        rw [if_pos hl]
      rw [hr]
      simp only [List.getD_cons_zero]
      rw [List.getD_eq_getElem?_getD, List.getD_eq_getElem?_getD,
        List.getElem?_append_left hl]
    · have hrec : idx - xs.length < (xss.map List.length).sum := by omega
      have hr : resolveSpec (xs.length :: xss.map List.length) idx =
          ((resolveSpec (xss.map List.length) (idx - xs.length)).1 + 1,
           (resolveSpec (xss.map List.length) (idx - xs.length)).2) := by
        simp only [resolveSpec]
        rw [if_neg hl]
      rw [hr]
      simp only [List.getD_cons_succ]
      rw [← ih (idx - xs.length) hrec]
      rw [List.getD_eq_getElem?_getD, List.getD_eq_getElem?_getD,
        List.getElem?_append_right (by omega)]

/-! ### Multi-chunk target accessors -/

theorem map_len_of_toOptList {α : Type} (targets : List (ArrChunk α))
    (hwf : ∀ a ∈ targets, a.wf = true) :
    (targets.map ArrChunk.toOptList).map List.length = targets.map ArrChunk.len := by
  rw [List.map_map]
  exact List.map_congr_left (fun a ha => ArrChunk.toOptList_length a (hwf a ha))

theorem getD_map_chunk {α β : Type} (targets : List (ArrChunk α)) (f : ArrChunk α → List β)
    (r : Nat) (hr : r < targets.length) :
    (targets.map f).getD r [] = f (targets.getD r (ArrChunk.mk [] none)) := by
  rw [List.getD_eq_getElem?_getD, List.getElem?_map, List.getElem?_eq_getElem hr,
    List.getD_eq_getElem?_getD, List.getElem?_eq_getElem hr]
  rfl

theorem target_get_unchecked_eq {α : Type} (targets : List (ArrChunk α))
    (hwf : ∀ a ∈ targets, a.wf = true) (cumlens : List Nat)
    (hcum : cumulative_lengths targets = some cumlens) (idx : Nat)
    (hidx : idx < totalLen targets) :
    target_get_unchecked targets cumlens idx =
      (targets.flatMap ArrChunk.toOptList).getD idx none := by
  have hc := cumulative_lengthsGo_some targets 0 cumlens hcum
  have hres : resolve_chunked_idx idx cumlens = resolveSpec (targets.map ArrChunk.len) idx := by
    rw [hc]
    have := resolve_eq_resolveSpec (targets.map ArrChunk.len) 0 idx (Nat.zero_le idx)
      (by simpa [totalLen] using hidx)
    simpa using this
  obtain ⟨h1, h2, _⟩ := resolveSpec_correct (targets.map ArrChunk.len) idx
    (by simpa [totalLen] using hidx)
  have h1' : (resolveSpec (targets.map ArrChunk.len) idx).1 < targets.length := by
    simpa using h1
  have hflat : targets.flatMap ArrChunk.toOptList = (targets.map ArrChunk.toOptList).flatten := by
    rw [List.flatMap_def]
  rw [hflat]
  have hlen_eq := map_len_of_toOptList targets hwf
  have hfg := flatten_getD (targets.map ArrChunk.toOptList) idx none
    (by rw [hlen_eq]; simpa [totalLen] using hidx)
  rw [hlen_eq] at hfg
  rw [hfg]
  unfold target_get_unchecked
  rw [hres]
  rw [getD_map_chunk targets ArrChunk.toOptList _ h1']
  have hchunk_wf : (targets.getD (resolveSpec (targets.map ArrChunk.len) idx).1
      (ArrChunk.mk [] none)).wf = true := by
    have hmem : targets.getD (resolveSpec (targets.map ArrChunk.len) idx).1
        (ArrChunk.mk [] none) ∈ targets := by
      rw [List.getD_eq_getElem _ _ h1']
      exact List.getElem_mem h1'
    exact hwf _ hmem
  have h2' : (resolveSpec (targets.map ArrChunk.len) idx).2 <
      (targets.getD (resolveSpec (targets.map ArrChunk.len) idx).1 (ArrChunk.mk [] none)).len := by
    rw [List.getD_eq_getElem _ _ h1']
    have := h2
    rw [List.getD_eq_getElem _ 0 h1] at this
    simpa using this
  rw [ArrChunk.toOptList_getD _ hchunk_wf _ h2']

theorem target_value_unchecked_eq {α : Type} [Inhabited α] (targets : List (ArrChunk α))
    (hwf : ∀ a ∈ targets, a.wf = true) (hdense : ∀ a ∈ targets, a.nullCount = 0)
    (cumlens : List Nat) (hcum : cumulative_lengths targets = some cumlens) (idx : Nat)
    (hidx : idx < totalLen targets) :
    some (target_value_unchecked targets cumlens idx) =
      (targets.flatMap ArrChunk.toOptList).getD idx none := by
  have hc := cumulative_lengthsGo_some targets 0 cumlens hcum
  have hres : resolve_chunked_idx idx cumlens = resolveSpec (targets.map ArrChunk.len) idx := by
    rw [hc]
    have := resolve_eq_resolveSpec (targets.map ArrChunk.len) 0 idx (Nat.zero_le idx)
      (by simpa [totalLen] using hidx)
    simpa using this
  obtain ⟨h1, h2, _⟩ := resolveSpec_correct (targets.map ArrChunk.len) idx
    (by simpa [totalLen] using hidx)
  have h1' : (resolveSpec (targets.map ArrChunk.len) idx).1 < targets.length := by
    simpa using h1
  have hmem : targets.getD (resolveSpec (targets.map ArrChunk.len) idx).1
      (ArrChunk.mk [] none) ∈ targets := by
    rw [List.getD_eq_getElem _ _ h1']
    exact List.getElem_mem h1'
  have h2' : (resolveSpec (targets.map ArrChunk.len) idx).2 <
      (targets.getD (resolveSpec (targets.map ArrChunk.len) idx).1 (ArrChunk.mk [] none)).len := by
    rw [List.getD_eq_getElem _ _ h1']
    have := h2
    rw [List.getD_eq_getElem _ 0 h1] at this
    simpa using this
  have hgu : target_get_unchecked targets cumlens idx =
      (targets.flatMap ArrChunk.toOptList).getD idx none :=
    target_get_unchecked_eq targets hwf cumlens hcum idx hidx
  rw [← hgu]
  simp only [target_get_unchecked, target_value_unchecked, hres]
  exact (ArrChunk.dense_get_eq_value _ (hwf _ hmem) (hdense _ hmem) _ h2').symm

/-! ### Gather-layer lemmas -/

theorem collectOpt_toOptList {α : Type} [Inhabited α] (xs : List (Option α)) :
    (collectOpt xs).toOptList = xs := by
  unfold collectOpt
  by_cases h : xs.all Option.isSome = true
  · rw [if_pos h]
    rw [List.all_eq_true] at h
    rw [ArrChunk.toOptList_none _ rfl]
    show (xs.map (fun o => o.getD default)).map some = xs
    rw [List.map_map]
    have hPoint : ∀ o ∈ xs, (some ∘ fun o => o.getD default) o = id o := by
      intro o ho
      cases o with
      | none => exact absurd (h none ho) (by simp)
      | some v => rfl
    rw [List.map_congr_left hPoint, List.map_id]
  · rw [if_neg h]
    rw [ArrChunk.toOptList_some _ (xs.map Option.isSome) rfl]
    rw [List.zip_map' (fun o => o.getD default) Option.isSome xs, List.map_map]
    have hPoint : ∀ o ∈ xs,
        ((fun p => if p.2 then some p.1 else none) ∘
          fun o => (o.getD default, o.isSome)) o = id o := by
      intro o _
      cases o with
      | none => rfl
      | some v => rfl
    rw [List.map_congr_left hPoint, List.map_id]

theorem collectOpt_len {α : Type} [Inhabited α] (xs : List (Option α)) :
    (collectOpt xs).len = xs.length := by
  unfold collectOpt
  by_cases h : xs.all Option.isSome = true
  · rw [if_pos h]; simp [ArrChunk.len]
  · rw [if_neg h]; simp [ArrChunk.len]

theorem totalLen_singleton {α : Type} (t : ArrChunk α) : totalLen [t] = t.len := by
  simp [totalLen]

theorem SlotOk_mem (a : ArrChunk Nat) (len : Nat) (hwf : a.wf = true)
    (hs : SlotOk a len) :
    ∀ o ∈ a.toOptList, ∀ j, o = some j → j < len := by
  intro o ho j hj
  subst hj
  obtain ⟨k, hk, hget⟩ := List.mem_iff_getElem.mp ho
  have hk' : k < a.len := by
    rw [← ArrChunk.toOptList_length a hwf]
    exact hk
  have hsome := ArrChunk.toOptList_getElem a hwf k hk'
  rw [List.getElem?_eq_getElem hk, hget] at hsome
  exact hs k hk' j (Option.some.inj hsome).symm

theorem ChunkedArray.dense_chunks {α : Type} (ca : ChunkedArray α)
    (h : ca.nullCount = 0) : ∀ a ∈ ca.chunks, a.nullCount = 0 := by
  unfold ChunkedArray.nullCount at h
  rw [List.sum_eq_zero_iff] at h
  intro a ha
  exact h _ (List.mem_map_of_mem _ ha)

theorem gatherSpec_append {α : Type} (t : List (Option α)) (xs ys : List (Option Nat)) :
    gatherSpec t (xs ++ ys) = gatherSpec t xs ++ gatherSpec t ys := by
  unfold gatherSpec
  rw [List.map_append]

theorem gatherSpec_length {α : Type} (t : List (Option α)) (xs : List (Option Nat)) :
    (gatherSpec t xs).length = xs.length := by
  unfold gatherSpec
  rw [List.length_map]

theorem gather_idx_array_eq {α : Type} [Inhabited α] (targets : List (ArrChunk α))
    (has_nulls : Bool) (indices : List Nat)
    (hwf : ∀ a ∈ targets, a.wf = true)
    (htl : totalLen targets ≤ IdxMax)
    (hn : has_nulls = false → ∀ a ∈ targets, a.nullCount = 0)
    (hin : ∀ i ∈ indices, i < totalLen targets) :
    ∃ arr, gather_idx_array_unchecked targets has_nulls indices = some arr ∧
      arr.toOptList = indices.map
        (fun i => (targets.flatMap ArrChunk.toOptList).getD i none) ∧
      arr.len = indices.length ∧
      (has_nulls = false → arr.validity = none) := by
  unfold gather_idx_array_unchecked
  by_cases h1 : targets.length = 1
  · rw [if_pos h1]
    obtain ⟨t, ht⟩ := List.length_eq_one.mp h1
    subst ht
    have hflat : [t].flatMap ArrChunk.toOptList = t.toOptList := by simp
    have hwt : t.wf = true := hwf t (by simp)
    cases has_nulls with
    | true =>
      rw [if_pos rfl]
      refine ⟨_, rfl, ?_, ?_, by simp⟩
      · rw [collectOpt_toOptList, hflat]
        apply List.map_congr_left
        intro i hi
        have hi' : i < t.len := by
          have := hin i hi
          rwa [totalLen_singleton] at this
        simp only [List.headD_cons]
        exact (ArrChunk.toOptList_getD t hwt i hi').symm
      · rw [collectOpt_len, List.length_map]
    | false =>
      rw [if_neg (by simp)]
      refine ⟨_, rfl, ?_, ?_, fun _ => rfl⟩
      · rw [ArrChunk.toOptList_none _ rfl, List.map_map, hflat]
        apply List.map_congr_left
        intro i hi
        have hi' : i < t.len := by
          have := hin i hi
          rwa [totalLen_singleton] at this
        have hd : t.nullCount = 0 := hn rfl t (by simp)
        simp only [List.headD_cons, Function.comp_apply]
        exact (ArrChunk.dense_getD t hwt hd i hi').symm
      · simp [ArrChunk.len]
  · rw [if_neg h1]
    have hcum : cumulative_lengths targets =
        some (cumlensOfGo (targets.map ArrChunk.len) 0) :=
      cumulative_lengthsGo_some_of_le targets 0 (by omega)
    rw [hcum]
    simp only [Option.map_some']
    cases has_nulls with
    | true =>
      rw [if_pos rfl]
      refine ⟨_, rfl, ?_, ?_, by simp⟩
      · rw [collectOpt_toOptList]
        apply List.map_congr_left
        intro i hi
        exact target_get_unchecked_eq targets hwf _ hcum i (hin i hi)
      · rw [collectOpt_len, List.length_map]
    | false =>
      rw [if_neg (by simp)]
      refine ⟨_, rfl, ?_, ?_, fun _ => rfl⟩
      · rw [ArrChunk.toOptList_none _ rfl, List.map_map]
        apply List.map_congr_left
        intro i hi
        simp only [Function.comp_apply]
        exact target_value_unchecked_eq targets hwf (hn rfl) _ hcum i (hin i hi)
      · simp [ArrChunk.len]

theorem gatherIdxChunk_eq {α : Type} [Inhabited α] (targets : List (ArrChunk α))
    (thn : Bool) (a : ArrChunk Nat)
    (hwf : ∀ c ∈ targets, c.wf = true)
    (htl : totalLen targets ≤ IdxMax)
    (hn : thn = false → ∀ c ∈ targets, c.nullCount = 0)
    (hwa : a.wf = true)
    (hina : ∀ o ∈ a.toOptList, ∀ j, o = some j → j < totalLen targets) :
    ∃ arr, gatherIdxChunk targets thn a = some arr ∧
      arr.toOptList = gatherSpec (targets.flatMap ArrChunk.toOptList) a.toOptList ∧
      arr.len = a.len := by
  unfold gatherIdxChunk
  by_cases h0 : a.nullCount = 0
  · rw [if_pos h0]
    have hdense := ArrChunk.dense_toOptList a hwa h0
    have hinv : ∀ i ∈ a.values, i < totalLen targets := by
      intro i hi
      apply hina (some i) _ i rfl
      rw [hdense]
      exact List.mem_map_of_mem some hi
    obtain ⟨arr, he, htol, hlen, _⟩ := gather_idx_array_eq targets thn a.values hwf htl hn hinv
    refine ⟨arr, he, ?_, ?_⟩
    · rw [htol, hdense]
      unfold gatherSpec
      rw [List.map_map]
      rfl
    · rw [hlen]
      rfl
  · rw [if_neg h0]
    by_cases h1 : targets.length = 1
    · rw [if_pos h1]
      obtain ⟨t, ht⟩ := List.length_eq_one.mp h1
      subst ht
      have hwt : t.wf = true := hwf t (by simp)
      have hflat : [t].flatMap ArrChunk.toOptList = t.toOptList := by simp
      cases thn with
      | true =>
        rw [if_pos rfl]
        refine ⟨_, rfl, ?_, ?_⟩
        · rw [collectOpt_toOptList, hflat]
          unfold gatherSpec
          apply List.map_congr_left
          intro o ho
          cases o with
          | none => rfl
          | some j =>
            have hj : j < t.len := by
              have := hina (some j) ho j rfl
              rwa [totalLen_singleton] at this
            simp only [List.headD_cons]
            show t.get_unchecked j = t.toOptList.getD j none
            exact (ArrChunk.toOptList_getD t hwt j hj).symm
        · rw [collectOpt_len, List.length_map, ArrChunk.toOptList_length a hwa]
      | false =>
        rw [if_neg (by simp)]
        refine ⟨_, rfl, ?_, ?_⟩
        · rw [collectOpt_toOptList, hflat]
          unfold gatherSpec
          apply List.map_congr_left
          intro o ho
          cases o with
          | none => rfl
          | some j =>
            have hj : j < t.len := by
              have := hina (some j) ho j rfl
              rwa [totalLen_singleton] at this
            simp only [List.headD_cons]
            show some (t.value_unchecked j) = t.toOptList.getD j none
            exact (ArrChunk.dense_getD t hwt (hn rfl t (by simp)) j hj).symm
        · rw [collectOpt_len, List.length_map, ArrChunk.toOptList_length a hwa]
    · rw [if_neg h1]
      have hcum : cumulative_lengths targets =
          some (cumlensOfGo (targets.map ArrChunk.len) 0) :=
        cumulative_lengthsGo_some_of_le targets 0 (by omega)
      rw [hcum]
      simp only [Option.map_some']
      cases thn with
      | true =>
        rw [if_pos rfl]
        refine ⟨_, rfl, ?_, ?_⟩
        · rw [collectOpt_toOptList]
          unfold gatherSpec
          apply List.map_congr_left
          intro o ho
          cases o with
          | none => rfl
          | some j =>
            show target_get_unchecked targets _ j =
              (targets.flatMap ArrChunk.toOptList).getD j none
            exact target_get_unchecked_eq targets hwf _ hcum j (hina (some j) ho j rfl)
        · rw [collectOpt_len, List.length_map, ArrChunk.toOptList_length a hwa]
      | false =>
        rw [if_neg (by simp)]
        refine ⟨_, rfl, ?_, ?_⟩
        · rw [collectOpt_toOptList]
          unfold gatherSpec
          apply List.map_congr_left
          intro o ho
          cases o with
          | none => rfl
          | some j =>
            show some (target_value_unchecked targets _ j) =
              (targets.flatMap ArrChunk.toOptList).getD j none
            exact target_value_unchecked_eq targets hwf (hn rfl) _ hcum j
              (hina (some j) ho j rfl)
        · rw [collectOpt_len, List.length_map, ArrChunk.toOptList_length a hwa]

theorem gatherChunks_eq {α : Type} [Inhabited α] (targets : List (ArrChunk α)) (thn : Bool)
    (hwf : ∀ c ∈ targets, c.wf = true)
    (htl : totalLen targets ≤ IdxMax)
    (hn : thn = false → ∀ c ∈ targets, c.nullCount = 0) :
    ∀ (chs : List (ArrChunk Nat)),
      (∀ a ∈ chs, a.wf = true) →
      (∀ a ∈ chs, ∀ o ∈ a.toOptList, ∀ j, o = some j → j < totalLen targets) →
      ∃ outs, optionSequence (chs.map (gatherIdxChunk targets thn)) = some outs ∧
        outs.flatMap ArrChunk.toOptList =
          gatherSpec (targets.flatMap ArrChunk.toOptList) (chs.flatMap ArrChunk.toOptList) ∧
        outs.length = chs.length ∧
        outs.map ArrChunk.len = chs.map ArrChunk.len := by
  intro chs
  induction chs with
  | nil =>
    intro _ _
    exact ⟨[], rfl, by simp [gatherSpec], rfl, rfl⟩
  | cons a rest ih =>
    intro hw hin
    obtain ⟨arr, he, ht, hl⟩ := gatherIdxChunk_eq targets thn a hwf htl hn
      (hw a (by simp)) (hin a (by simp))
    obtain ⟨outs, hseq, hflat, hlen, hmap⟩ := ih
      (fun c hc => hw c (by simp [hc]))
      (fun c hc => hin c (by simp [hc]))
    refine ⟨arr :: outs, ?_, ?_, ?_, ?_⟩
    · simp only [List.map_cons, he, optionSequence, hseq, Option.map_some']
    · simp only [List.flatMap_cons, hflat, ht, gatherSpec_append]
    · simp [hlen]
    · simp [hmap, hl]

/-- Main correctness of the segmented-index scalar gather: under
well-formedness, an in-range index and a target that fits the index width,
the gather succeeds and realizes the spec's element-level contract. -/
theorem takeUncheckedIdxCa_eq {α : Type} [Inhabited α] (ca : ChunkedArray α)
    (indices : ChunkedArray Nat)
    (hwfca : ca.wf = true) (hwfidx : indices.wf = true)
    (htl : ca.len ≤ IdxMax)
    (hin : inRangeB indices.toOptList ca.len = true) :
    ∃ out, takeUncheckedIdxCa ca indices = some out ∧
      out.toOptList = gatherSpec ca.toOptList indices.toOptList ∧
      out.chunks.length = indices.chunks.length ∧
      out.len = indices.len ∧
      out.sorted = update_gather_sorted_flag ca.sorted indices.sorted := by
  have hwfc : ∀ a ∈ ca.chunks, a.wf = true := by
    unfold ChunkedArray.wf at hwfca
    rw [List.all_eq_true] at hwfca
    exact hwfca
  have hwfi : ∀ a ∈ indices.chunks, a.wf = true := by
    unfold ChunkedArray.wf at hwfidx
    rw [List.all_eq_true] at hwfidx
    exact hwfidx
  have hslot : ∀ a ∈ indices.chunks, SlotOk a ca.len :=
    (inRangeB_iff_chunks indices ca.len hwfidx).mp hin
  have hin' : ∀ a ∈ indices.chunks, ∀ o ∈ a.toOptList, ∀ j, o = some j →
      j < totalLen ca.chunks := by
    intro a ha
    exact SlotOk_mem a ca.len (hwfi a ha) (hslot a ha)
  have hn : decide (0 < ca.nullCount) = false → ∀ c ∈ ca.chunks, c.nullCount = 0 := by
    intro h
    have h0 : ca.nullCount = 0 := by
      simp only [decide_eq_false_iff_not, Nat.not_lt, Nat.le_zero] at h
      exact h
    exact ChunkedArray.dense_chunks ca h0
  have htl' : totalLen ca.chunks ≤ IdxMax := htl
  obtain ⟨outs, hseq, hflat, hlen, hmap⟩ :=
    gatherChunks_eq ca.chunks (decide (0 < ca.nullCount)) hwfc htl' hn
      indices.chunks hwfi hin'
  refine ⟨ChunkedArray.mk outs (update_gather_sorted_flag ca.sorted indices.sorted),
    ?_, ?_, ?_, ?_, rfl⟩
  · simp only [takeUncheckedIdxCa]
    rw [hseq]
    rfl
  · exact hflat
  · exact hlen
  · show (outs.map ArrChunk.len).sum = (indices.chunks.map ArrChunk.len).sum
    rw [hmap]

/-- Correctness of the flat-slice scalar gather. -/
theorem takeUncheckedSlice_eq {α : Type} [Inhabited α] (ca : ChunkedArray α)
    (indices : List Nat)
    (hwfca : ca.wf = true) (htl : ca.len ≤ IdxMax)
    (hin : ∀ i ∈ indices, i < ca.len) :
    ∃ out, takeUncheckedSlice ca indices = some out ∧
      out.toOptList = indices.map (fun i => ca.toOptList.getD i none) ∧
      out.chunks.length = 1 ∧
      out.len = indices.length ∧
      out.sorted = IsSorted.Not ∧
      (ca.nullCount = 0 → ∀ c ∈ out.chunks, c.validity = none) := by
  have hwfc : ∀ a ∈ ca.chunks, a.wf = true := by
    unfold ChunkedArray.wf at hwfca
    rw [List.all_eq_true] at hwfca
    exact hwfca
  have hn : decide (0 < ca.nullCount) = false → ∀ c ∈ ca.chunks, c.nullCount = 0 := by
    intro h
    have h0 : ca.nullCount = 0 := by
      simp only [decide_eq_false_iff_not, Nat.not_lt, Nat.le_zero] at h
      exact h
    exact ChunkedArray.dense_chunks ca h0
  obtain ⟨arr, he, ht, hl, hv⟩ :=
    gather_idx_array_eq ca.chunks (decide (0 < ca.nullCount)) indices hwfc htl hn hin
  refine ⟨from_chunk_iter_like [arr], ?_, ?_, rfl, ?_, rfl, ?_⟩
  · unfold takeUncheckedSlice
    rw [he]
    rfl
  · show [arr].flatMap ArrChunk.toOptList = _
    simp [ht, ChunkedArray.toOptList]
  · show ([arr].map ArrChunk.len).sum = indices.length
    simp [hl]
  · intro h0 c hc
    have hdec : decide (0 < ca.nullCount) = false := by simp [h0]
    have hvn := hv hdec
    simp only [from_chunk_iter_like, List.mem_singleton] at hc
    rw [hc]
    exact hvn

/-! ### View-encoded and nested gatherers -/

theorem map_flatMap' {β γ δ : Type} (l : List β) (f : β → List γ) (g : γ → δ) :
    (l.flatMap f).map g = l.flatMap (fun x => (f x).map g) := by
  induction l with
  | nil => rfl
  | cons b bs ih => simp [List.flatMap_cons, List.map_append, ih]

theorem flatMap_congr_left {β γ : Type} (l : List β) (f g : β → List γ)
    (h : ∀ b ∈ l, f b = g b) : l.flatMap f = l.flatMap g := by
  induction l with
  | nil => rfl
  | cons b bs ih =>
    simp only [List.flatMap_cons]
    rw [h b (by simp), ih (fun c hc => h c (by simp [hc]))]

theorem ChunkedArray.toOptList_len {α : Type} (ca : ChunkedArray α)
    (hwf : ca.wf = true) : ca.toOptList.length = ca.len := by
  have hwfc : ∀ a ∈ ca.chunks, a.wf = true := by
    unfold ChunkedArray.wf at hwf
    rw [List.all_eq_true] at hwf
    exact hwf
  unfold ChunkedArray.toOptList ChunkedArray.len
  rw [List.length_flatMap]
  congr 1
  exact List.map_congr_left (fun a ha => ArrChunk.toOptList_length a (hwfc a ha))

theorem chunk_bits_length {α : Type} (c : ArrChunk α) (hwf : c.wf = true) :
    (c.validity.getD (List.replicate c.len true)).length = c.values.length := by
  cases hv : c.validity with
  | none => simp [ArrChunk.len]
  | some v =>
    simp only [Option.getD_some]
    exact ArrChunk.wf_some c v hv hwf

theorem chunk_padded_toOptList {α : Type} (c : ArrChunk α) (hwf : c.wf = true) :
    (c.values.zip (c.validity.getD (List.replicate c.len true))).map
      (fun p => if p.2 then some p.1 else none) = c.toOptList := by
  cases hv : c.validity with
  | none =>
    simp only [Option.getD_none]
    rw [ArrChunk.toOptList_none c hv]
    have hmem : ∀ p ∈ c.values.zip (List.replicate c.len true),
        (if p.2 then some p.1 else none) = some p.1 := by
      intro p hp
      rw [List.eq_of_mem_replicate (List.of_mem_zip hp).2]
      simp
    rw [List.map_congr_left hmem]
    have hfst : (c.values.zip (List.replicate c.len true)).map Prod.fst = c.values :=
      List.map_fst_zip c.values _ (by simp [ArrChunk.len])
    calc (c.values.zip (List.replicate c.len true)).map (fun p => some p.1)
        = ((c.values.zip (List.replicate c.len true)).map Prod.fst).map some := by
          rw [List.map_map]; rfl
      _ = c.values.map some := by rw [hfst]
  | some v =>
    simp only [Option.getD_some]
    exact (ArrChunk.toOptList_some c v hv).symm

theorem zip_flat_toOptList {α : Type} (chs : List (ArrChunk α))
    (hwf : ∀ c ∈ chs, c.wf = true) :
    ((chs.flatMap (fun c => c.values)).zip
        (chs.flatMap (fun c => c.validity.getD (List.replicate c.len true)))).map
      (fun p => if p.2 then some p.1 else none) = chs.flatMap ArrChunk.toOptList := by
  induction chs with
  | nil => rfl
  | cons c rest ih =>
    simp only [List.flatMap_cons]
    rw [List.zip_append (chunk_bits_length c (hwf c (by simp))).symm, List.map_append]
    rw [chunk_padded_toOptList c (hwf c (by simp))]
    rw [ih (fun d hd => hwf d (by simp [hd]))]

theorem rechunk_head_toOptList {α : Type} (ca : ChunkedArray α) (hwf : ca.wf = true) :
    (ca.rechunk.chunks.headD (ArrChunk.mk [] none)).toOptList = ca.toOptList := by
  have hwfc : ∀ a ∈ ca.chunks, a.wf = true := by
    unfold ChunkedArray.wf at hwf
    rw [List.all_eq_true] at hwf
    exact hwf
  unfold ChunkedArray.rechunk
  simp only [List.headD_cons]
  by_cases h0 : ca.nullCount = 0
  · rw [if_pos h0, ArrChunk.toOptList_none _ rfl]
    show (ca.chunks.flatMap (fun c => c.values)).map some = ca.toOptList
    rw [map_flatMap']
    exact flatMap_congr_left ca.chunks _ _
      (fun c hc => (ArrChunk.dense_toOptList c (hwfc c hc)
        (ChunkedArray.dense_chunks ca h0 c hc)).symm)
  · rw [if_neg h0, ArrChunk.toOptList_some _ _ rfl]
    exact zip_flat_toOptList ca.chunks hwfc

theorem rechunk_head_len {α : Type} (ca : ChunkedArray α) :
    (ca.rechunk.chunks.headD (ArrChunk.mk [] none)).len = ca.len := by
  unfold ChunkedArray.rechunk
  simp only [List.headD_cons]
  show (ca.chunks.flatMap (fun c => c.values)).length = ca.len
  rw [List.length_flatMap]
  rfl

theorem gatherViewChunk_shape {α : Type} [Inhabited α] (targets : List (ArrChunk α))
    (thn : Bool) (htl : totalLen targets ≤ IdxMax) (a : ArrChunk Nat)
    (hwa : a.wf = true) :
    ∃ arr, gatherViewChunk targets thn a = some arr ∧ arr.len = a.len := by
  unfold gatherViewChunk
  by_cases h1 : targets.length = 1
  · rw [if_pos h1]
    refine ⟨_, rfl, ?_⟩
    unfold take_unchecked_arr
    rw [collectOpt_len, List.length_map, ArrChunk.toOptList_length a hwa]
  · rw [if_neg h1]
    have hcum : cumulative_lengths targets =
        some (cumlensOfGo (targets.map ArrChunk.len) 0) :=
      cumulative_lengthsGo_some_of_le targets 0 (by omega)
    rw [hcum]
    simp only [Option.map_some']
    cases thn with
    | true =>
      rw [if_pos rfl]
      refine ⟨_, rfl, ?_⟩
      rw [collectOpt_len, List.length_map, ArrChunk.toOptList_length a hwa]
    | false =>
      rw [if_neg (by simp)]
      refine ⟨_, rfl, ?_⟩
      rw [collectOpt_len, List.length_map, ArrChunk.toOptList_length a hwa]

theorem gatherViewChunks_shape {α : Type} [Inhabited α] (targets : List (ArrChunk α))
    (thn : Bool) (htl : totalLen targets ≤ IdxMax) :
    ∀ (chs : List (ArrChunk Nat)), (∀ a ∈ chs, a.wf = true) →
      ∃ outs, optionSequence (chs.map (gatherViewChunk targets thn)) = some outs ∧
        outs.length = chs.length ∧
        outs.map ArrChunk.len = chs.map ArrChunk.len := by
  intro chs
  induction chs with
  | nil => exact fun _ => ⟨[], rfl, rfl, rfl⟩
  | cons a rest ih =>
    intro hw
    obtain ⟨arr, he, hl⟩ := gatherViewChunk_shape targets thn htl a (hw a (by simp))
    obtain ⟨outs, hseq, hlen, hmap⟩ := ih (fun c hc => hw c (by simp [hc]))
    refine ⟨arr :: outs, ?_, ?_, ?_⟩
    · simp only [List.map_cons, he, optionSequence, hseq, Option.map_some']
    · simp [hlen]
    · simp [hmap, hl]

/-- The view-encoded gather mirrors the index's chunking and length. -/
theorem takeUncheckedView_shape {α : Type} [Inhabited α] (ca : ChunkedArray α)
    (indices : ChunkedArray Nat) (hwfidx : indices.wf = true)
    (htl : ca.len ≤ IdxMax) :
    ∃ out, takeUncheckedView ca indices = some out ∧
      out.chunks.length = indices.chunks.length ∧
      out.len = indices.len ∧
      out.sorted = update_gather_sorted_flag ca.sorted indices.sorted := by
  have hwfi : ∀ a ∈ indices.chunks, a.wf = true := by
    unfold ChunkedArray.wf at hwfidx
    rw [List.all_eq_true] at hwfidx
    exact hwfidx
  obtain ⟨outs, hseq, hlen, hmap⟩ :=
    gatherViewChunks_shape ca.chunks (decide (0 < ca.nullCount)) htl indices.chunks hwfi
  refine ⟨ChunkedArray.mk outs (update_gather_sorted_flag ca.sorted indices.sorted),
    ?_, hlen, ?_, rfl⟩
  · simp only [takeUncheckedView]
    rw [hseq]
    rfl
  · show (outs.map ArrChunk.len).sum = (indices.chunks.map ArrChunk.len).sum
    rw [hmap]

/-- The nested gather produces exactly one output chunk of the index's
logical length, regardless of the index's chunking. -/
theorem takeUncheckedNested_shape {α : Type} [Inhabited α] (ca : ChunkedArray α)
    (indices : ChunkedArray Nat) (hwfidx : indices.wf = true) :
    (takeUncheckedNested ca indices).chunks.length = 1 ∧
    (takeUncheckedNested ca indices).len = indices.len := by
  constructor
  · rfl
  · show ([take_unchecked_arr (ca.rechunk.chunks.headD (ArrChunk.mk [] none))
      (indices.rechunk.chunks.headD (ArrChunk.mk [] none))].map ArrChunk.len).sum = indices.len
    simp only [List.map_cons, List.map_nil, List.sum_cons, List.sum_nil, Nat.add_zero]
    unfold take_unchecked_arr
    rw [collectOpt_len, List.length_map]
    rw [rechunk_head_toOptList indices hwfidx]
    exact ChunkedArray.toOptList_len indices hwfidx

theorem check_bounds_cases (vals : List Nat) (len : Nat) :
    check_bounds vals len = Except.ok () ∨
      check_bounds vals len =
        Except.error (PolarsError.outOfBounds "gather indices are out of bounds") := by
  unfold check_bounds
  by_cases h : vals.all (fun i => decide (i < len)) = true
  · left; rw [if_pos h]
  · right
    simp only [Bool.not_eq_true] at h
    rw [h]
    rfl

/-! ### The claims -/

/-- C1: for every dense target (no validity bitmap on any chunk, any
chunking) and every dense in-range flat index, the checked gather succeeds,
element `k` of the result is the target's element at `I[k]`, and the result
carries no validity bitmap. -/
theorem c1_dense_checked_gather {α : Type} [Inhabited α] (ca : ChunkedArray α)
    (indices : List Nat)
    (hwf : ca.wf = true)
    (hdense : ∀ c ∈ ca.chunks, c.validity = none)
    (htl : ca.len ≤ IdxMax)
    (hin : ∀ i ∈ indices, i < ca.len) :
    ∃ out, takeSlice ca indices = some (Except.ok out) ∧
      out.toOptList = indices.map (fun i => ca.toOptList.getD i none) ∧
      (∀ c ∈ out.chunks, c.validity = none) := by
  have hcb : check_bounds indices ca.len = Except.ok () := by
    unfold check_bounds
    rw [if_pos]
    rw [List.all_eq_true]
    intro i hi
    simp [hin i hi]
  have h0 : ca.nullCount = 0 := by
    unfold ChunkedArray.nullCount
    rw [List.sum_eq_zero_iff]
    intro x hx
    obtain ⟨c, hc, hcx⟩ := List.mem_map.mp hx
    rw [← hcx]
    unfold ArrChunk.nullCount
    rw [hdense c hc]
    rfl
  obtain ⟨out, he, ht, _, _, _, hv⟩ := takeUncheckedSlice_eq ca indices hwf htl hin
  refine ⟨out, ?_, ht, hv h0⟩
  simp only [takeSlice, hcb]
  rw [he]
  rfl

/-- C1 witness: scenario B — target chunks `[[10,20],[30,40]]` (dense),
index `[2,0,3]`. -/
theorem c1_witness :
    ∃ out, takeSlice
        (ChunkedArray.mk [ArrChunk.mk [10, 20] none, ArrChunk.mk [30, 40] none]
          IsSorted.Not) [2, 0, 3] = some (Except.ok out) ∧
      out.toOptList = [2, 0, 3].map
        (fun i => (ChunkedArray.mk [ArrChunk.mk [10, 20] none, ArrChunk.mk [30, 40] none]
          IsSorted.Not).toOptList.getD i none) ∧
      (∀ c ∈ out.chunks, c.validity = none) :=
  c1_dense_checked_gather
    (ChunkedArray.mk [ArrChunk.mk [10, 20] none, ArrChunk.mk [30, 40] none] IsSorted.Not)
    [2, 0, 3] (by decide) (by decide) (by decide) (by decide)

/-- C2: the checked segmented-index gather returns the bounds-violation
error exactly when some non-null index value is `≥` the target's logical
length; a null slot's index value is never bounds-checked, and on failure
the `Except.error` carries no output array. -/
theorem c2_bounds_error_iff {α : Type} [Inhabited α] (ca : ChunkedArray α)
    (indices : ChunkedArray Nat) (hwfidx : indices.wf = true) :
    takeIdxCa ca indices =
        some (Except.error (PolarsError.outOfBounds "gather indices are out of bounds")) ↔
      oobB indices.toOptList ca.len = true := by
  rcases check_bounds_ca_cases indices ca.len with hok | herr
  · constructor
    · intro h
      simp only [takeIdxCa, hok] at h
      cases hx : takeUncheckedIdxCa ca indices with
      | none => rw [hx] at h; exact absurd h (by simp)
      | some out => rw [hx] at h; simp at h
    · intro h
      have hall := (check_bounds_ca_ok_iff indices ca.len hwfidx).mp hok
      have hir := (inRangeB_iff_chunks indices ca.len hwfidx).mpr hall
      rw [oobB_eq_not_inRangeB, hir] at h
      simp at h
  · constructor
    · intro _
      have hnok : ¬ check_bounds_ca indices ca.len = Except.ok () := by
        rw [herr]
        simp
      have hnall : ¬ ∀ a ∈ indices.chunks, SlotOk a ca.len := fun hall =>
        hnok ((check_bounds_ca_ok_iff indices ca.len hwfidx).mpr hall)
      have hnir : ¬ inRangeB indices.toOptList ca.len = true := fun hir =>
        hnall ((inRangeB_iff_chunks indices ca.len hwfidx).mp hir)
      rw [oobB_eq_not_inRangeB]
      cases hb : inRangeB indices.toOptList ca.len with
      | false => rfl
      | true => exact absurd hb hnir
    · intro _
      simp only [takeIdxCa, herr]

/-- C2 witness: index `[5]` against a length-3 target fails with the
bounds-violation error; an out-of-range value `999` hidden under a null
slot does not fail. -/
theorem c2_witness :
    takeIdxCa (ChunkedArray.mk [ArrChunk.mk [(1 : Nat), 2, 3] none] IsSorted.Not)
        (ChunkedArray.mk [ArrChunk.mk [5] none] IsSorted.Not) =
      some (Except.error (PolarsError.outOfBounds "gather indices are out of bounds")) ∧
    ¬ takeIdxCa (ChunkedArray.mk [ArrChunk.mk [(1 : Nat), 2, 3] none] IsSorted.Not)
        (ChunkedArray.mk [ArrChunk.mk [0, 999] (some [true, false])] IsSorted.Not) =
      some (Except.error (PolarsError.outOfBounds "gather indices are out of bounds")) :=
  ⟨(c2_bounds_error_iff _ _ (by decide)).mpr (by decide),
   fun h => absurd ((c2_bounds_error_iff _ _ (by decide)).mp h) (by decide)⟩

/-- C3: for a gather by a nullable in-range index array, output element `k`
is null iff index slot `k` is null or the target element at `I[k]` is
null. -/
theorem c3_null_propagation {α : Type} [Inhabited α] (ca : ChunkedArray α)
    (indices : ChunkedArray Nat)
    (hwfca : ca.wf = true) (hwfidx : indices.wf = true)
    (htl : ca.len ≤ IdxMax)
    (hin : inRangeB indices.toOptList ca.len = true) :
    ∃ out, takeUncheckedIdxCa ca indices = some out ∧
      ∀ k, k < indices.len →
        ((out.toOptList.getD k none).isNone = true ↔
          ((indices.toOptList.getD k none).isNone = true ∨
           ∃ j, indices.toOptList.getD k none = some j ∧
             (ca.toOptList.getD j none).isNone = true)) := by
  obtain ⟨out, he, ht, _, _, _⟩ := takeUncheckedIdxCa_eq ca indices hwfca hwfidx htl hin
  refine ⟨out, he, ?_⟩
  intro k hk
  have hk' : k < indices.toOptList.length := by
    rw [ChunkedArray.toOptList_len indices hwfidx]
    exact hk
  rw [ht]
  unfold gatherSpec
  rw [List.getD_eq_getElem?_getD, List.getElem?_map, List.getElem?_eq_getElem hk']
  simp only [Option.map_some', Option.getD_some]
  rw [List.getD_eq_getElem?_getD, List.getElem?_eq_getElem hk']
  simp only [Option.getD_some]
  cases ho : indices.toOptList[k] with
  | none => simp
  | some j =>
    simp only [Option.some_bind, Option.isNone_some, Bool.false_eq_true, false_or,
      Option.some.injEq]
    constructor
    · intro h
      exact ⟨j, rfl, h⟩
    · intro h
      obtain ⟨j', hj', h⟩ := h
      rw [← hj'] at h
      exact h

/-- C3 witness: scenario A — target `[10,20,30,40]` with index
`[3,0,null,1]`, plus a null target slot: the null index slot and the null
target slot both yield null outputs. -/
theorem c3_witness :
    (∀ i ∈ (ChunkedArray.mk [ArrChunk.mk [(3 : Nat), 0, 0, 1]
        (some [true, true, false, true])] IsSorted.Not).toOptList.map
        (fun o => (o.map (fun v => decide (v < 4))).getD true), i = true) ∧
    ∃ out, takeUncheckedIdxCa
        (ChunkedArray.mk [ArrChunk.mk [(10 : Nat), 20, 30, 40] none] IsSorted.Not)
        (ChunkedArray.mk [ArrChunk.mk [3, 0, 0, 1] (some [true, true, false, true])]
          IsSorted.Not) = some out ∧
      ∀ k, k < (ChunkedArray.mk [ArrChunk.mk [(3 : Nat), 0, 0, 1]
          (some [true, true, false, true])] IsSorted.Not).len →
        ((out.toOptList.getD k none).isNone = true ↔
          (((ChunkedArray.mk [ArrChunk.mk [(3 : Nat), 0, 0, 1]
              (some [true, true, false, true])] IsSorted.Not).toOptList.getD k none).isNone
              = true ∨
           ∃ j, (ChunkedArray.mk [ArrChunk.mk [(3 : Nat), 0, 0, 1]
              (some [true, true, false, true])] IsSorted.Not).toOptList.getD k none = some j ∧
             (((ChunkedArray.mk [ArrChunk.mk [(10 : Nat), 20, 30, 40] none]
                IsSorted.Not).toOptList.getD j none).isNone = true))) :=
  ⟨by decide,
   c3_null_propagation
     (ChunkedArray.mk [ArrChunk.mk [(10 : Nat), 20, 30, 40] none] IsSorted.Not)
     (ChunkedArray.mk [ArrChunk.mk [3, 0, 0, 1] (some [true, true, false, true])]
       IsSorted.Not)
     (by decide) (by decide) (by decide) (by decide)⟩

/-- C4: the sortedness-flag propagator is a pure function of the pair of
flags and matches the spec's 3x3 table exactly, including the Not-absorbing
cases and `(Descending, Descending) = Ascending`. -/
theorem c4_sorted_flag_table :
    ∀ a b : IsSorted, update_gather_sorted_flag a b = sortednessSpecTable a b := by
  intro a b
  cases a <;> cases b <;> rfl

theorem length_cumlensOfGo (lens : List Nat) (c : Nat) :
    (cumlensOfGo lens c).length = lens.length := by
  induction lens generalizing c with
  | nil => rfl
  | cons l ls ih => simp [cumlensOfGo, ih]

/-- C5: for a non-empty chunk list and a flat index below the total length,
the resolver applied to the cumulative-length table returns the pair
`(chunk_id, local_offset)` with `chunk_id` the largest id whose cumulative
length is `≤` the index, `local_offset = index - cumulative[chunk_id]`, and
`local_offset` strictly below that chunk's length. -/
theorem c5_resolver {α : Type} (arrs : List (ArrChunk α)) (idx : Nat) (t : List Nat)
    (hne : arrs ≠ [])
    (hcum : cumulative_lengths arrs = some t)
    (hidx : idx < totalLen arrs) :
    (resolve_chunked_idx idx t).1 < arrs.length ∧
    t.getD (resolve_chunked_idx idx t).1 0 ≤ idx ∧
    (∀ j, j < t.length → t.getD j 0 ≤ idx → j ≤ (resolve_chunked_idx idx t).1) ∧
    (resolve_chunked_idx idx t).2 = idx - t.getD (resolve_chunked_idx idx t).1 0 ∧
    (resolve_chunked_idx idx t).2 <
      (arrs.getD (resolve_chunked_idx idx t).1 (ArrChunk.mk [] none)).len := by
  have hc := cumulative_lengthsGo_some arrs 0 t hcum
  have hsum : idx < (arrs.map ArrChunk.len).sum := by
    simpa [totalLen] using hidx
  have hres : resolve_chunked_idx idx t = resolveSpec (arrs.map ArrChunk.len) idx := by
    rw [hc]
    have := resolve_eq_resolveSpec (arrs.map ArrChunk.len) 0 idx (Nat.zero_le idx)
      (by omega)
    simpa using this
  obtain ⟨h1, h2, h3⟩ := resolveSpec_correct (arrs.map ArrChunk.len) idx hsum
  have h1' : (resolveSpec (arrs.map ArrChunk.len) idx).1 < arrs.length := by
    simpa using h1
  have htl : t.length = (arrs.map ArrChunk.len).length := by
    rw [hc, length_cumlensOfGo]
  have hgd : t.getD (resolveSpec (arrs.map ArrChunk.len) idx).1 0 =
      ((arrs.map ArrChunk.len).take (resolveSpec (arrs.map ArrChunk.len) idx).1).sum := by
    rw [hc, cumlensOfGo_getD (arrs.map ArrChunk.len) 0 _ h1, Nat.zero_add]
  rw [hres]
  refine ⟨h1', ?_, ?_, ?_, ?_⟩
  · rw [hgd]
    omega
  · intro j hj hjle
    apply resolveSpec_largest (arrs.map ArrChunk.len) idx hsum j (by omega)
    rw [hc, cumlensOfGo_getD (arrs.map ArrChunk.len) 0 j (by omega), Nat.zero_add] at hjle
    exact hjle
  · rw [hgd]
    omega
  · rw [List.getD_eq_getElem _ _ h1']
    rw [List.getD_eq_getElem _ 0 h1] at h2
    simpa using h2

/-- C5 witness: chunks of lengths `[2,1,2]` give the table `[0,2,3]`;
index 3 resolves into chunk 2 at offset 0. -/
theorem c5_witness :
    (resolve_chunked_idx 3 [0, 2, 3]).1 <
      [ArrChunk.mk [(10 : Nat), 20] none, ArrChunk.mk [30] none,
        ArrChunk.mk [40, 50] none].length ∧
    [0, 2, 3].getD (resolve_chunked_idx 3 [0, 2, 3]).1 0 ≤ 3 ∧
    (∀ j, j < [0, 2, 3].length → [0, 2, 3].getD j 0 ≤ 3 →
      j ≤ (resolve_chunked_idx 3 [0, 2, 3]).1) ∧
    (resolve_chunked_idx 3 [0, 2, 3]).2 =
      3 - [0, 2, 3].getD (resolve_chunked_idx 3 [0, 2, 3]).1 0 ∧
    (resolve_chunked_idx 3 [0, 2, 3]).2 <
      ([ArrChunk.mk [(10 : Nat), 20] none, ArrChunk.mk [30] none,
        ArrChunk.mk [40, 50] none].getD (resolve_chunked_idx 3 [0, 2, 3]).1
        (ArrChunk.mk [] none)).len :=
  c5_resolver
    [ArrChunk.mk [(10 : Nat), 20] none, ArrChunk.mk [30] none, ArrChunk.mk [40, 50] none]
    3 [0, 2, 3] (by decide) (by decide) (by decide)

/-- C6: gathering from a target split into chunks at arbitrary split points
yields, element for element (values and nulls), the same logical result as
gathering from the same logical values stored as a single chunk. -/
theorem c6_chunking_refinement {α : Type} [Inhabited α] (ca cb : ChunkedArray α)
    (indices : ChunkedArray Nat)
    (hwfca : ca.wf = true) (hwfcb : cb.wf = true) (hwfidx : indices.wf = true)
    (hsingle : cb.chunks.length = 1)
    (heq : ca.toOptList = cb.toOptList)
    (htl : ca.len ≤ IdxMax)
    (hin : inRangeB indices.toOptList ca.len = true) :
    ∃ oa ob, takeUncheckedIdxCa ca indices = some oa ∧
      takeUncheckedIdxCa cb indices = some ob ∧
      oa.toOptList = ob.toOptList := by
  have hlen : cb.len = ca.len := by
    rw [← ChunkedArray.toOptList_len ca hwfca, ← ChunkedArray.toOptList_len cb hwfcb,
      heq]
  obtain ⟨oa, hea, hta, _⟩ := takeUncheckedIdxCa_eq ca indices hwfca hwfidx htl hin
  obtain ⟨ob, heb, htb, _⟩ := takeUncheckedIdxCa_eq cb indices hwfcb hwfidx
    (by rw [hlen]; exact htl) (by rw [hlen]; exact hin)
  exact ⟨oa, ob, hea, heb, by rw [hta, htb, heq]⟩

/-- C6 witness: `[[10,20],[30,40]]` versus `[[10,20,30,40]]` under the
nullable index `[3, null, 1]`. -/
theorem c6_witness :
    ∃ oa ob, takeUncheckedIdxCa
        (ChunkedArray.mk [ArrChunk.mk [(10 : Nat), 20] none, ArrChunk.mk [30, 40] none]
          IsSorted.Not)
        (ChunkedArray.mk [ArrChunk.mk [3, 0, 1] (some [true, false, true])] IsSorted.Not) =
        some oa ∧
      takeUncheckedIdxCa
        (ChunkedArray.mk [ArrChunk.mk [(10 : Nat), 20, 30, 40] none] IsSorted.Not)
        (ChunkedArray.mk [ArrChunk.mk [3, 0, 1] (some [true, false, true])] IsSorted.Not) =
        some ob ∧
      oa.toOptList = ob.toOptList :=
  c6_chunking_refinement
    (ChunkedArray.mk [ArrChunk.mk [(10 : Nat), 20] none, ArrChunk.mk [30, 40] none]
      IsSorted.Not)
    (ChunkedArray.mk [ArrChunk.mk [(10 : Nat), 20, 30, 40] none] IsSorted.Not)
    (ChunkedArray.mk [ArrChunk.mk [3, 0, 1] (some [true, false, true])] IsSorted.Not)
    (by decide) (by decide) (by decide) (by decide) (by decide) (by decide) (by decide)

/-- C7 counterexample: a nested (list-typed) target gathered by a 2-chunk
index produces a single output chunk, so the output's chunk structure does
not mirror the index's chunking as the claim states for every category. -/
theorem c7_counterexample :
    ¬ ((takeUncheckedNested
        (ChunkedArray.mk [ArrChunk.mk [[(1 : Nat)], [2]] none] IsSorted.Not)
        (ChunkedArray.mk [ArrChunk.mk [0] none, ArrChunk.mk [1] none]
          IsSorted.Not)).chunks.length =
      (ChunkedArray.mk [ArrChunk.mk [(0 : Nat)] none, ArrChunk.mk [1] none]
        IsSorted.Not).chunks.length) := by
  decide

/-- C7 (amended): for every gather the output's logical length equals the
index's logical length; for the scalar and view-encoded categories the
output's chunk structure mirrors the index's chunking (one output chunk per
index chunk), while for the nested categories (struct, list,
fixed-size-array) target and index are normalized to one chunk each and the
output is a single chunk regardless of the index's chunking. -/
theorem c7_amended {α : Type} [Inhabited α] :
    (∀ (ca : ChunkedArray α) (indices : ChunkedArray Nat),
      ca.wf = true → indices.wf = true → ca.len ≤ IdxMax →
      inRangeB indices.toOptList ca.len = true →
      ∃ out, takeUncheckedIdxCa ca indices = some out ∧
        out.chunks.length = indices.chunks.length ∧ out.len = indices.len) ∧
    (∀ (ca : ChunkedArray α) (indices : ChunkedArray Nat),
      indices.wf = true → ca.len ≤ IdxMax →
      ∃ out, takeUncheckedView ca indices = some out ∧
        out.chunks.length = indices.chunks.length ∧ out.len = indices.len) ∧
    (∀ (ca : ChunkedArray α) (indices : ChunkedArray Nat),
      indices.wf = true →
      (takeUncheckedNested ca indices).chunks.length = 1 ∧
      (takeUncheckedNested ca indices).len = indices.len) := by
  refine ⟨?_, ?_, ?_⟩
  · intro ca indices hwfca hwfidx htl hin
    obtain ⟨out, he, _, hc, hl, _⟩ := takeUncheckedIdxCa_eq ca indices hwfca hwfidx htl hin
    exact ⟨out, he, hc, hl⟩
  · intro ca indices hwfidx htl
    obtain ⟨out, he, hc, hl, _⟩ := takeUncheckedView_shape ca indices hwfidx htl
    exact ⟨out, he, hc, hl⟩
  · intro ca indices hwfidx
    exact takeUncheckedNested_shape ca indices hwfidx

/-- C7 witness: a 2-chunk index against scalar, view-encoded and nested
targets. -/
theorem c7_witness :
    (∃ out, takeUncheckedIdxCa
        (ChunkedArray.mk [ArrChunk.mk [(10 : Nat), 20, 30] none] IsSorted.Not)
        (ChunkedArray.mk [ArrChunk.mk [0, 2] none, ArrChunk.mk [1] none] IsSorted.Not) =
        some out ∧
      out.chunks.length = (ChunkedArray.mk [ArrChunk.mk [(0 : Nat), 2] none,
        ArrChunk.mk [1] none] IsSorted.Not).chunks.length ∧
      out.len = (ChunkedArray.mk [ArrChunk.mk [(0 : Nat), 2] none,
        ArrChunk.mk [1] none] IsSorted.Not).len) ∧
    (∃ out, takeUncheckedView
        (ChunkedArray.mk [ArrChunk.mk [(10 : Nat), 20, 30] none] IsSorted.Not)
        (ChunkedArray.mk [ArrChunk.mk [0, 2] none, ArrChunk.mk [1] none] IsSorted.Not) =
        some out ∧
      out.chunks.length = (ChunkedArray.mk [ArrChunk.mk [(0 : Nat), 2] none,
        ArrChunk.mk [1] none] IsSorted.Not).chunks.length ∧
      out.len = (ChunkedArray.mk [ArrChunk.mk [(0 : Nat), 2] none,
        ArrChunk.mk [1] none] IsSorted.Not).len) ∧
    ((takeUncheckedNested
        (ChunkedArray.mk [ArrChunk.mk [(10 : Nat), 20, 30] none] IsSorted.Not)
        (ChunkedArray.mk [ArrChunk.mk [0, 2] none, ArrChunk.mk [1] none]
          IsSorted.Not)).chunks.length = 1 ∧
      (takeUncheckedNested
        (ChunkedArray.mk [ArrChunk.mk [(10 : Nat), 20, 30] none] IsSorted.Not)
        (ChunkedArray.mk [ArrChunk.mk [0, 2] none, ArrChunk.mk [1] none]
          IsSorted.Not)).len = (ChunkedArray.mk [ArrChunk.mk [(0 : Nat), 2] none,
        ArrChunk.mk [1] none] IsSorted.Not).len) :=
  ⟨c7_amended.1 _ _ (by decide) (by decide) (by decide) (by decide),
   c7_amended.2.1 _ _ (by decide) (by decide),
   c7_amended.2.2 _ _ (by decide)⟩

/-- C8: building the cumulative-length table aborts (models the source's
`checked_add(..).unwrap()` panic as `none`) exactly when the sum of the
chunk lengths exceeds the index width; under the precondition that the
total length fits in an index word the addition never wraps and the abort
branch is unreachable. -/
theorem c8_cumulative_overflow {α : Type} (arrs : List (ArrChunk α)) :
    (totalLen arrs ≤ IdxMax →
      cumulative_lengths arrs = some (cumlensOf (arrs.map ArrChunk.len))) ∧
    (IdxMax < totalLen arrs → cumulative_lengths arrs = none) := by
  constructor
  · intro h
    exact cumulative_lengthsGo_some_of_le arrs 0 (by omega)
  · intro h
    have hne : arrs ≠ [] := by
      intro he
      rw [he] at h
      simp only [totalLen, List.map_nil, List.sum_nil] at h
      omega
    exact cumulative_lengthsGo_none_of_gt arrs 0 hne (by omega)

/-- C8 witness: a small target builds its table; a single chunk of
`2 ^ 32` elements overflows the `u32` index width and aborts. -/
theorem c8_witness :
    cumulative_lengths [ArrChunk.mk [(3 : Nat), 4] none] =
      some (cumlensOf ([ArrChunk.mk [(3 : Nat), 4] none].map ArrChunk.len)) ∧
    cumulative_lengths [ArrChunk.mk (List.replicate (2 ^ 32) (0 : Nat)) none] = none :=
  ⟨(c8_cumulative_overflow _).1 (by decide),
   (c8_cumulative_overflow _).2 (by
      simp only [totalLen, ArrChunk.len, List.map_cons, List.map_nil, List.sum_cons,
        List.sum_nil, List.length_replicate]
      decide)⟩

/-- C9: every bounds-violation failure observed from either checked entry
point (flat-slice or segmented index, dense or null-aware detection) is the
single uniform out-of-bounds error value, carrying no per-index detail. -/
theorem c9_uniform_error {α : Type} [Inhabited α] :
    (∀ (ca : ChunkedArray α) (indices : List Nat) (e : PolarsError),
      takeSlice ca indices = some (Except.error e) →
      e = PolarsError.outOfBounds "gather indices are out of bounds") ∧
    (∀ (ca : ChunkedArray α) (indices : ChunkedArray Nat) (e : PolarsError),
      takeIdxCa ca indices = some (Except.error e) →
      e = PolarsError.outOfBounds "gather indices are out of bounds") := by
  constructor
  · intro ca indices e h
    rcases check_bounds_cases indices ca.len with hok | herr
    · simp only [takeSlice, hok] at h
      cases hx : takeUncheckedSlice ca indices with
      | none => rw [hx] at h; exact absurd h (by simp)
      | some out => rw [hx] at h; simp at h
    · simp only [takeSlice, herr] at h
      simp only [Option.some.injEq, Except.error.injEq] at h
      exact h.symm
  · intro ca indices e h
    rcases check_bounds_ca_cases indices ca.len with hok | herr
    · simp only [takeIdxCa, hok] at h
      cases hx : takeUncheckedIdxCa ca indices with
      | none => rw [hx] at h; exact absurd h (by simp)
      | some out => rw [hx] at h; simp at h
    · simp only [takeIdxCa, herr] at h
      simp only [Option.some.injEq, Except.error.injEq] at h
      exact h.symm

/-- C9 witness: both checked entry points fail on index 5 against a
length-3 target with exactly the uniform out-of-bounds error. -/
theorem c9_witness :
    takeSlice (ChunkedArray.mk [ArrChunk.mk [(1 : Nat), 2, 3] none] IsSorted.Not) [5] =
      some (Except.error (PolarsError.outOfBounds "gather indices are out of bounds")) ∧
    takeIdxCa (ChunkedArray.mk [ArrChunk.mk [(1 : Nat), 2, 3] none] IsSorted.Not)
        (ChunkedArray.mk [ArrChunk.mk [5] none] IsSorted.Not) =
      some (Except.error (PolarsError.outOfBounds "gather indices are out of bounds")) ∧
    PolarsError.outOfBounds "gather indices are out of bounds" =
      PolarsError.outOfBounds "gather indices are out of bounds" :=
  ⟨by rfl, by rfl,
   c9_uniform_error.1 (ChunkedArray.mk [ArrChunk.mk [(1 : Nat), 2, 3] none] IsSorted.Not)
     [5] (PolarsError.outOfBounds "gather indices are out of bounds") (by rfl)⟩

/-- C10: the scalar gather invoked with a plain flat index slice does not
apply the sortedness-flag propagator — the result's flag is the default
`Not` even when the target carries a flag; only the segmented-index entry
point sets the propagated flag. -/
theorem c10_slice_flag_default {α : Type} [Inhabited α] :
    (∀ (ca : ChunkedArray α) (indices : List Nat) (out : ChunkedArray α),
      takeUncheckedSlice ca indices = some out → out.sorted = IsSorted.Not) ∧
    (∀ (ca : ChunkedArray α) (indices : ChunkedArray Nat) (out : ChunkedArray α),
      takeUncheckedIdxCa ca indices = some out →
      out.sorted = update_gather_sorted_flag ca.sorted indices.sorted) := by
  constructor
  · intro ca indices out h
    unfold takeUncheckedSlice at h
    cases hx : gather_idx_array_unchecked ca.chunks (decide (0 < ca.nullCount)) indices with
    | none => rw [hx] at h; exact absurd h (by simp)
    | some arr =>
      rw [hx] at h
      simp only [Option.map_some', Option.some.injEq] at h
      rw [← h]
      rfl
  · intro ca indices out h
    simp only [takeUncheckedIdxCa] at h
    cases hx : optionSequence
        (indices.chunks.map (gatherIdxChunk ca.chunks (decide (0 < ca.nullCount)))) with
    | none => rw [hx] at h; exact absurd h (by simp)
    | some chs =>
      rw [hx] at h
      simp only [Option.map_some', Option.some.injEq] at h
      rw [← h]

/-- C10 witness: a Descending-flagged target gathered through a flat slice
keeps the default `Not` flag, while the segmented-index entry point
propagates `Descending × Descending = Ascending` (scenario D). -/
theorem c10_witness :
    (∃ out, takeUncheckedSlice
        (ChunkedArray.mk [ArrChunk.mk [(30 : Nat), 20, 10] none] IsSorted.Descending)
        [2, 1, 0] = some out ∧ out.sorted = IsSorted.Not) ∧
    (∃ out, takeUncheckedIdxCa
        (ChunkedArray.mk [ArrChunk.mk [(30 : Nat), 20, 10] none] IsSorted.Descending)
        (ChunkedArray.mk [ArrChunk.mk [2, 1, 0] none] IsSorted.Descending) = some out ∧
      out.sorted = IsSorted.Ascending) :=
  ⟨⟨ChunkedArray.mk [ArrChunk.mk [10, 20, 30] none] IsSorted.Not, by rfl,
     c10_slice_flag_default.1
       (ChunkedArray.mk [ArrChunk.mk [(30 : Nat), 20, 10] none] IsSorted.Descending)
       [2, 1, 0] (ChunkedArray.mk [ArrChunk.mk [10, 20, 30] none] IsSorted.Not) (by rfl)⟩,
   ⟨ChunkedArray.mk [ArrChunk.mk [10, 20, 30] none] IsSorted.Ascending, by rfl,
     (c10_slice_flag_default.2
       (ChunkedArray.mk [ArrChunk.mk [(30 : Nat), 20, 10] none] IsSorted.Descending)
       (ChunkedArray.mk [ArrChunk.mk [2, 1, 0] none] IsSorted.Descending)
       (ChunkedArray.mk [ArrChunk.mk [10, 20, 30] none] IsSorted.Ascending)
       (by rfl)).trans rfl⟩⟩

end PolarsGather
